import Mathlib

/-!
Verification of the motion/click-execution core of the AreaPicker repository
(`src/human_mouse.rs` and the engine part of `src/main.rs`).

Modelling conventions, used consistently below:

* `i32` screen coordinates are embedded as `Int`; `u64`/`u32`/`usize`
  quantities as `Nat`.
* `f32` arithmetic is idealized as exact arithmetic on `ℚ`; decimal `f32`
  literals are read as the corresponding rationals.  `f32::hypot`/`sqrt`
  is modelled by `Rat.sqrt` (exact on perfect squares, which is all any
  theorem below depends on), and the transcendental functions `cos`/`sin`
  are an explicit oracle parameter (`TransOps`), since no exact rational
  implementation exists; theorems that need a fact about them (only
  `cos π = -1`) take it as a hypothesis.
* `f32::round` is modelled by Mathlib's `round`; the two differ only on
  negative exact halves (round half away from zero vs. half up), which no
  statement below touches (they are only applied to values proved to be
  integers).
* `rand`'s `StdRng` is abstracted as a stream of independent uniform draws
  in `[0,1)` (`Rng`): `gen::<f32>()` returns the next stream element `u`,
  `gen_range(a..b)` on floats returns `a + u*(b-a)`, and integer ranges
  return `a + ⌊u*span⌋`.  `StdRng::seed_from_u64` becomes a function from
  seeds to streams and `StdRng::from_entropy` an explicit entropy-stream
  parameter, so that seeded determinism is the statement that the output
  does not depend on the entropy parameter.
* Executed effects (pointer moves, sleeps with their millisecond duration,
  button down/up, reads of the shared `running` flag, acquisitions of the
  config mutex, and the sampling of a target point in `do_click`) are
  recorded as an event trace `List Ev`; the unbounded `loop`s of
  `ClickJob::spawn` take a fuel parameter and report whether they exited
  (`break 'outer`) before the fuel ran out.
-/

namespace AreaPicker

/-! ### Geometric primitives (`src/human_mouse.rs`, `Bounds`) -/

/-- `Bounds` from `human_mouse.rs`: an axis-aligned screen region. -/
structure Bounds where
  min_x : Int
  max_x : Int
  min_y : Int
  max_y : Int
deriving DecidableEq, Repr

/-- Rust's `i32::clamp(lo, hi)`: it `assert!(lo <= hi)`s and panics when the
region is inverted, so the model returns `none` exactly on the panicking
inputs and otherwise the clamped value. -/
def i32_clamp (x lo hi : Int) : Option Int :=
  if lo ≤ hi then some (max lo (min x hi)) else none

/-- The value `i32_clamp` returns on non-panicking inputs. -/
def i32_clamp_val (x lo hi : Int) : Int := max lo (min x hi)

/-- `Bounds::clamp`, including the panic of `i32::clamp` on inverted
regions (modelled as `none`). -/
def Bounds.clamp (b : Bounds) (p : Int × Int) : Option (Int × Int) := do
  let x ← i32_clamp p.1 b.min_x b.max_x
  let y ← i32_clamp p.2 b.min_y b.max_y
  pure (x, y)

/-- The value `Bounds::clamp` computes when it does not panic.  The
interpreter below uses this total version; it coincides with the source
only on regions where `i32::clamp` does not assert, so every movement
theorem that quantifies over a supplied region assumes the region is
valid (the job loop reaches `do_click` only behind an `is_valid` guard;
the panic itself is the subject of claim C9). -/
def Bounds.clampVal (b : Bounds) (p : Int × Int) : Int × Int :=
  (i32_clamp_val p.1 b.min_x b.max_x, i32_clamp_val p.2 b.min_y b.max_y)

/-- `Bounds::contains`. -/
def Bounds.contains (b : Bounds) (p : Int × Int) : Bool :=
  (decide (b.min_x ≤ p.1 ∧ p.1 ≤ b.max_x)) && (decide (b.min_y ≤ p.2 ∧ p.2 ≤ b.max_y))

/-- `Bounds::nearest_point` is defined in the source as `self.clamp(p)`,
so it inherits the panic on inverted regions. -/
def Bounds.nearest_point (b : Bounds) (p : Int × Int) : Option (Int × Int) :=
  b.clamp p

/-- Total value of `nearest_point` (= `clampVal`).  The entry glide of
`human_move_and_click` calls `nearest_point` on any supplied region, and
on an inverted one the source panics there before emitting anything, so
the movement theorems below restrict to absent-or-valid regions. -/
def Bounds.nearestVal (b : Bounds) (p : Int × Int) : Int × Int :=
  b.clampVal p

/-- `Bounds::width`. -/
def Bounds.width (b : Bounds) : Int := b.max_x - b.min_x

/-- `Bounds::height`. -/
def Bounds.height (b : Bounds) : Int := b.max_y - b.min_y

/-- `Bounds::is_valid`. -/
def Bounds.is_valid (b : Bounds) : Bool :=
  (decide (0 < b.width)) && (decide (0 < b.height))

/-! ### The random-number abstraction -/

/-- Abstract PRNG state: an infinite stream of uniform draws in `[0,1)`
together with the position of the next draw. -/
structure Rng where
  stream : ℕ → ℚ
  pos : ℕ

/-- The next raw uniform draw. -/
def Rng.u (r : Rng) : ℚ := r.stream r.pos

/-- The state after consuming one draw. -/
def Rng.bump (r : Rng) : Rng := ⟨r.stream, r.pos + 1⟩

/-- `rng.gen::<f32>()`: uniform in `[0,1)`. -/
def Rng.gen_unit (r : Rng) : ℚ × Rng := (r.u, r.bump)

/-- `rng.gen_range(a..b)` and `a..=b` on floats: `a + u * (b - a)`. -/
def Rng.gen_range_q (r : Rng) (a b : ℚ) : ℚ × Rng :=
  (a + r.u * (b - a), r.bump)

/-- `rng.gen_range(a..=b)` on signed integers: `a + ⌊u * (b - a + 1)⌋`. -/
def Rng.gen_range_int (r : Rng) (a b : Int) : Int × Rng :=
  (a + ⌊r.u * ((b : ℚ) - (a : ℚ) + 1)⌋, r.bump)

/-- `rng.gen_range(a..=b)` on unsigned integers. -/
def Rng.gen_range_nat (r : Rng) (a b : ℕ) : ℕ × Rng :=
  (a + (⌊r.u * ((b : ℚ) + 1 - (a : ℚ))⌋).toNat, r.bump)

/-- `rng.gen_range(a..b)` (half-open) on unsigned integers. -/
def Rng.gen_range_nat_ho (r : Rng) (a b : ℕ) : ℕ × Rng :=
  (a + (⌊r.u * ((b : ℚ) - (a : ℚ))⌋).toNat, r.bump)

/-- Admissible draw streams: every draw lies in `[0,1)` (which is what
`rand` guarantees for the draws the code makes). -/
def RngValid (r : Rng) : Prop := ∀ i, 0 ≤ r.stream i ∧ r.stream i < 1

/-! ### Motion-profile settings and the transcendental oracle -/

/-- `HumanMouseSettings` from `human_mouse.rs`. -/
structure HumanMouseSettings where
  avg_speed : ℚ
  speed_jitter : ℚ
  micro_jitter_px : ℚ
  micro_jitter_hz : ℚ
  overshoot_chance : ℚ
  overshoot_px : ℚ
  min_pause_ms : ℕ
  max_pause_ms : ℕ
  rng_seed : Option ℕ

/-- `HumanMouseSettings::default()`. -/
def default_settings : HumanMouseSettings :=
  { avg_speed := 1400
    speed_jitter := 1/4
    micro_jitter_px := 3/5
    micro_jitter_hz := 9
    overshoot_chance := 1/4
    overshoot_px := 12
    min_pause_ms := 15
    max_pause_ms := 60
    rng_seed := none }

/-- The settings literal built inside `ClickJob::spawn` in `main.rs`. -/
def spawn_settings : HumanMouseSettings :=
  { avg_speed := 1400
    speed_jitter := 1/4
    micro_jitter_px := 3/5
    micro_jitter_hz := 9
    overshoot_chance := 1/4
    overshoot_px := 4
    min_pause_ms := 22
    max_pause_ms := 55
    rng_seed := none }

/-- Oracle for the transcendental `f32` functions used by the path code. -/
structure TransOps where
  cos : ℚ → ℚ
  sin : ℚ → ℚ

/-- The `f32` value of `std::f32::consts::PI` (exact rational). -/
def pi32 : ℚ := 13176795 / 4194304

/-- Model of `f32::sqrt` (via `hypot`): exact integer square root on ℚ;
exact on perfect squares, which is all the development relies on. -/
def fsqrt (q : ℚ) : ℚ := Rat.sqrt q

/-- `as i32` on an `f32`: truncation toward zero. -/
def truncQ (q : ℚ) : Int := if 0 ≤ q then ⌊q⌋ else ⌈q⌉

/-- `ease_in_out` from `human_mouse.rs`: `0.5 - 0.5 * cos(π t)`. -/
def ease_in_out (T : TransOps) (t : ℚ) : ℚ :=
  1/2 - 1/2 * T.cos (pi32 * t)

/-- `cubic_bezier` from `human_mouse.rs`. -/
def cubic_bezier (p0 p1 p2 p3 : ℚ × ℚ) (t : ℚ) : ℚ × ℚ :=
  let u := 1 - t
  let uu := u * u
  let tt := t * t
  let uuu := uu * u
  let ttt := tt * t
  (uuu * p0.1 + 3 * uu * t * p1.1 + 3 * u * tt * p2.1 + ttt * p3.1,
   uuu * p0.2 + 3 * uu * t * p1.2 + 3 * u * tt * p2.2 + ttt * p3.2)

/-- `len` from `human_mouse.rs`: `hypot` floored at 1. -/
def len (p q : ℚ × ℚ) : ℚ :=
  max (fsqrt ((q.1 - p.1) * (q.1 - p.1) + (q.2 - p.2) * (q.2 - p.2))) 1

/-! ### Event traces -/

/-- Mouse buttons (`ClickButton` in `main.rs` / `enigo::MouseButton`). -/
inductive MButton
  | left
  | right
deriving DecidableEq, Repr

/-- Observable events of one run: pointer moves, sleeps (argument in ms),
button down/up, reads of the `running` flag (with the value read),
acquisitions of the config mutex, and target-point samples in `do_click`. -/
inductive Ev
  | move (p : Int × Int)
  | sleep (ms : ℕ)
  | down (b : MButton)
  | up (b : MButton)
  | flagRead (v : Bool)
  | configRead
  | sample (p : Int × Int)
deriving DecidableEq, Repr

/-- Predicate pickers for counting. -/
def Ev.isDown : Ev → Bool
  | Ev.down _ => true
  | _ => false

def Ev.isSleep : Ev → Bool
  | Ev.sleep _ => true
  | _ => false

def Ev.isFlagRead : Ev → Bool
  | Ev.flagRead _ => true
  | _ => false

def Ev.isConfigRead : Ev → Bool
  | Ev.configRead => true
  | _ => false

def Ev.isSample : Ev → Bool
  | Ev.sample _ => true
  | _ => false

/-- Milliseconds slept by one event. -/
def Ev.sleepMs : Ev → ℕ
  | Ev.sleep n => n
  | _ => 0

/-- Number of button-down events (= number of clicks) in a trace. -/
def clicksOf (l : List Ev) : ℕ := l.countP Ev.isDown

/-- Number of sleep events in a trace. -/
def sleepsOf (l : List Ev) : ℕ := l.countP Ev.isSleep

/-- Number of `running`-flag reads in a trace. -/
def flagReadsOf (l : List Ev) : ℕ := l.countP Ev.isFlagRead

/-- Number of config-mutex acquisitions in a trace. -/
def configReadsOf (l : List Ev) : ℕ := l.countP Ev.isConfigRead

/-- Number of target-point samples in a trace. -/
def samplesOf (l : List Ev) : ℕ := l.countP Ev.isSample

/-- Total milliseconds slept in a trace. -/
def totalSleep (l : List Ev) : ℕ := (l.map Ev.sleepMs).sum

/-- The sequence of emitted pointer positions of a trace. -/
def movesOf (l : List Ev) : List (Int × Int) :=
  l.filterMap fun e => match e with
    | Ev.move p => some p
    | _ => none

/-! ### The trajectory synthesizer (`human_mouse.rs`) -/

/-- `make_bezier_with_wiggle`: the cubic control polygon with random
perpendicular wiggle.  Consumes two draws. -/
def make_bezier_with_wiggle (src dst : Int × Int) (rng : Rng) :
    ((ℚ × ℚ) × (ℚ × ℚ) × (ℚ × ℚ) × (ℚ × ℚ)) × Rng :=
  let p0 : ℚ × ℚ := ((src.1 : ℚ), (src.2 : ℚ))
  let p3 : ℚ × ℚ := ((dst.1 : ℚ), (dst.2 : ℚ))
  let dx := p3.1 - p0.1
  let dy := p3.2 - p0.2
  let dist := len p0 p3
  let n : ℚ × ℚ := if 0 < dist then (-dy / dist, dx / dist) else (0, 0)
  let cdist := (1/4) * dist
  let d1 := rng.gen_range_q (-(12/100)) (12/100)
  let d2 := d1.2.gen_range_q (-(12/100)) (12/100)
  let amp1 := d1.1 * dist
  let amp2 := d2.1 * dist
  let p1 : ℚ × ℚ := (p0.1 + dx * (3/10) + n.1 * amp1, p0.2 + dy * (3/10) + n.2 * amp1)
  let p2 : ℚ × ℚ := (p0.1 + dx * (7/10) + n.1 * amp2, p0.2 + dy * (7/10) + n.2 * amp2)
  let p1 : ℚ × ℚ := (p1.1 + (dx / dist) * (cdist * (1/10)), p1.2 + (dy / dist) * (cdist * (1/10)))
  let p2 : ℚ × ℚ := (p2.1 - (dx / dist) * (cdist * (1/10)), p2.2 - (dy / dist) * (cdist * (1/10)))
  ((p0, p1, p2, p3), d2.2)

/-- `maybe_overshoot`: with probability `overshoot_chance`, a point beyond
`dst` along the travel direction (the `f32 as i32` cast truncates). -/
def maybe_overshoot (dst src : Int × Int) (s : HumanMouseSettings) (rng : Rng) :
    (Int × Int) × Rng :=
  let g := rng.gen_unit
  if g.1 < s.overshoot_chance then
    let dx : ℚ := ((dst.1 : ℚ) - (src.1 : ℚ))
    let dy : ℚ := ((dst.2 : ℚ) - (src.2 : ℚ))
    let d := max (fsqrt (dx * dx + dy * dy)) 1
    let ux := dx / d
    let uy := dy / d
    let ov := g.2.gen_range_q 0 s.overshoot_px
    ((dst.1 + truncQ (ux * ov.1), dst.2 + truncQ (uy * ov.1)), ov.2)
  else (dst, g.2)

/-- Everything `human_move_inner` computes before its step loop: the
control polygon and the timing/pause/jitter parameters drawn from the RNG
(in the order the code draws them). -/
structure InnerPlan where
  p0 : ℚ × ℚ
  p1 : ℚ × ℚ
  p2 : ℚ × ℚ
  p3 : ℚ × ℚ
  total_ms : ℕ
  step_ms : ℕ
  steps : ℕ
  pause_at : Option ℕ
  jitter_amp : ℚ
  jitter_hz : ℚ

/-- The pre-loop part of `human_move_inner`: curve construction, duration
(clamped to `[60, 1600]` ms), step tick (8–12 ms), optional mid-path pause
index, jitter parameters. -/
def innerPlan (src dst : Int × Int) (s : HumanMouseSettings) (rng : Rng) :
    InnerPlan × Rng :=
  let bez := make_bezier_with_wiggle src dst rng
  let p0 := bez.1.1
  let p1 := bez.1.2.1
  let p2 := bez.1.2.2.1
  let p3 := bez.1.2.2.2
  let distance := len p0 p3
  let sv := bez.2.gen_range_q (-1) 1
  let speed_variation := 1 + s.speed_jitter * sv.1
  let px_per_sec := max (s.avg_speed * speed_variation) 200
  let total_ms : ℕ := (⌊min (max ((distance / px_per_sec) * 1000) 60) 1600⌋).toNat
  let sm := sv.2.gen_range_nat 8 12
  let steps : ℕ := max (total_ms / (max sm.1 1)) 3
  let pu := sm.2.gen_unit
  let pa : Option ℕ × Rng :=
    if pu.1 < 1/4 then
      let pidx := pu.2.gen_range_nat_ho (steps / 3) (max (2 * steps / 3) (steps / 3 + 1))
      (some pidx.1, pidx.2)
    else (none, pu.2)
  let jitter_amp := s.micro_jitter_px
  let jf := pa.2.gen_range_q (-(1/5)) (1/5)
  let jitter_hz := max (s.micro_jitter_hz * (1 + jf.1)) 1
  (⟨p0, p1, p2, p3, total_ms, sm.1, steps, pa.1, jitter_amp, jitter_hz⟩, jf.2)

/-- Clamp a point into the optional containing region (the
`if let Some(b) = bounds` at the end of each loop iteration). -/
def applyClamp : Option Bounds → Int × Int → Int × Int
  | some b, p => b.clampVal p
  | none, p => p

/-- The position emitted at loop index `i` of `human_move_inner`, given the
jitter draw `jr` of that iteration: eased Bézier point, plus sinusoid +
random micro-jitter applied orthogonally to the local tangent, rounded and
clamped into the region. -/
def stepXY (T : TransOps) (pl : InnerPlan) (i : ℕ) (jr : ℚ) : ℚ × ℚ :=
  let raw_t : ℚ := (i : ℚ) / (pl.steps : ℚ)
  let t := ease_in_out T raw_t
  let xy := cubic_bezier pl.p0 pl.p1 pl.p2 pl.p3 t
  let w : ℚ := 2 * pi32 * pl.jitter_hz * ((i : ℚ) * ((pl.step_ms : ℚ) / 1000))
  let jitter := T.sin w * pl.jitter_amp + jr * (1/4)
  let tp := cubic_bezier pl.p0 pl.p1 pl.p2 pl.p3 (min (t + 1 / (pl.steps : ℚ)) 1)
  let dx := tp.1 - xy.1
  let dy := tp.2 - xy.2
  let d := max (fsqrt (dx * dx + dy * dy)) 1
  let nx := -dy / d
  let ny := dx / d
  (xy.1 + nx * jitter, xy.2 + ny * jitter)

/-- The emitted (rounded, clamped) integer position at loop index `i`. -/
def stepPoint (T : TransOps) (bounds : Option Bounds) (pl : InnerPlan) (i : ℕ) (jr : ℚ) :
    Int × Int :=
  applyClamp bounds (round (stepXY T pl i jr).1, round (stepXY T pl i jr).2)

/-- The step loop of `human_move_inner` over the given list of indices
(the code iterates `0..=steps`): each iteration draws the jitter, emits the
move, optionally the mid-path pause sleep, then the per-step sleep. -/
def runSteps (T : TransOps) (bounds : Option Bounds) (s : HumanMouseSettings)
    (pl : InnerPlan) : List ℕ → Rng → List Ev × Rng
  | [], rng => ([], rng)
  | i :: is, rng =>
    let jd := rng.gen_range_q (-pl.jitter_amp) pl.jitter_amp
    let pt := stepPoint T bounds pl i jd.1
    let pe : List Ev × Rng :=
      match pl.pause_at with
      | some pidx =>
        if i = pidx then
          let pd := jd.2.gen_range_nat s.min_pause_ms s.max_pause_ms
          ([Ev.sleep pd.1], pd.2)
        else ([], jd.2)
      | none => ([], jd.2)
    let rest := runSteps T bounds s pl is pe.2
    (Ev.move pt :: (pe.1 ++ (Ev.sleep pl.step_ms :: rest.1)), rest.2)

/-- `human_move_inner` from `human_mouse.rs`. -/
def human_move_inner (T : TransOps) (src dst : Int × Int) (bounds : Option Bounds)
    (s : HumanMouseSettings) (rng : Rng) : List Ev × Rng :=
  let pr := innerPlan src dst s rng
  runSteps T bounds s pr.1 (List.range (pr.1.steps + 1)) pr.2

/-- The overshoot-or-direct block of `human_move_and_click` (lines 151–160
of `human_mouse.rs`): maybe travel to an overshoot point, settle 20–40 ms,
then glide to `dst`; otherwise one direct inner path. -/
def human_move_main (T : TransOps) (src1 dst : Int × Int) (bounds : Option Bounds)
    (s : HumanMouseSettings) (rng : Rng) : List Ev × Rng :=
  let ov := maybe_overshoot dst src1 s rng
  if ov.1 ≠ dst then
    let e1 := human_move_inner T src1 ov.1 bounds s ov.2
    let st := e1.2.gen_range_nat_ho 0 20
    let e3 := human_move_inner T ov.1 dst bounds s st.2
    (e1.1 ++ (Ev.sleep (20 + st.1) :: e3.1), e3.2)
  else
    human_move_inner T src1 dst bounds s ov.2

/-- The movement portion of `human_move_and_click`: entry glide when the
start lies outside the region (lines 143–149), then the main block. -/
def human_move_part (T : TransOps) (src dst : Int × Int) (bounds : Option Bounds)
    (s : HumanMouseSettings) (rng : Rng) : List Ev × Rng :=
  match bounds with
  | some b =>
    if b.contains src then human_move_main T src dst (some b) s rng
    else
      let e := human_move_inner T src (b.nearestVal src) none s rng
      let m := human_move_main T (b.nearestVal src) dst (some b) s e.2
      (e.1 ++ m.1, m.2)
  | none => human_move_main T src dst none s rng

/-- `human_move_and_click` from `human_mouse.rs`.  The RNG is
`StdRng::seed_from_u64(seed)` when the profile carries a seed and a fresh
entropy stream otherwise; after the movement the click is emitted with a
randomized 20–70 ms hold. -/
def human_move_and_click (T : TransOps) (seed_stream : ℕ → ℕ → ℚ) (entropy : ℕ → ℚ)
    (src dst : Int × Int) (bounds : Option Bounds) (s : HumanMouseSettings)
    (button : MButton) : List Ev :=
  let rng : Rng :=
    ⟨(match s.rng_seed with
      | some sd => seed_stream sd
      | none => entropy), 0⟩
  let mv := human_move_part T src dst bounds s rng
  let hold := mv.2.gen_range_nat_ho 0 50
  mv.1 ++ [Ev.down button, Ev.sleep (20 + hold.1), Ev.up button]

/-! ### The Click Job (`ClickJob::spawn` in `main.rs`) -/

/-- `SequenceStep` from `main.rs`. -/
structure SequenceStep where
  name : String
  bounds : Bounds
  clicks : ℕ
  button : MButton
  min_secs : ℚ
  max_secs : ℚ

/-- `JobMode` from `main.rs`. -/
inductive JobMode
  | single (bounds : Option Bounds) (button : MButton) (min_secs max_secs : ℚ)
      (finite_clicks : Option ℕ)
  | sequence (steps : List SequenceStep) (cycles : Option ℕ)

/-- `ClickConfig` from `main.rs`. -/
structure ClickConfig where
  mode : JobMode

/-- The environment of the spawned thread: the transcendental oracle, the
seed-to-stream function (`StdRng::seed_from_u64`), a fresh entropy stream
per `from_entropy()` call, the thread RNG stream, the value of the shared
`running` flag at its n-th read, and the configuration value found at the
n-th acquisition of the config mutex (the UI may rewrite it between
acquisitions). -/
structure JobEnv where
  T : TransOps
  seed_stream : ℕ → ℕ → ℚ
  entropy : ℕ → ℕ → ℚ
  thread_stream : ℕ → ℚ
  flag : ℕ → Bool
  configs : ℕ → ClickConfig

/-- Mutable state of the job thread: thread-RNG position, counters of flag
reads / config reads / movements started, and `last_pos`. -/
structure JobSt where
  rng : Rng
  flagReads : ℕ
  configReads : ℕ
  moveCount : ℕ
  lastPos : Option (Int × Int)

/-- One `running_clone.load(...)`. -/
def read_flag (env : JobEnv) (st : JobSt) : Bool × List Ev × JobSt :=
  let v := env.flag st.flagReads
  (v, [Ev.flagRead v], { st with flagReads := st.flagReads + 1 })

/-- One `config_clone.lock().clone()`. -/
def read_config (env : JobEnv) (st : JobSt) : ClickConfig × List Ev × JobSt :=
  (env.configs st.configReads, [Ev.configRead], { st with configReads := st.configReads + 1 })

/-- A draw from the thread RNG inside the job state. -/
def JobSt.gen_q (st : JobSt) (a b : ℚ) : ℚ × JobSt :=
  let d := st.rng.gen_range_q a b
  (d.1, { st with rng := d.2 })

/-- The uniform target sample of `do_click`:
`(rng.gen_range(min_x..=max_x), rng.gen_range(min_y..=max_y))`. -/
def sample_point (b : Bounds) (rng : Rng) : (Int × Int) × Rng :=
  let x := rng.gen_range_int b.min_x b.max_x
  let y := x.2.gen_range_int b.min_y b.max_y
  ((x.1, y.1), y.2)

/-- The `do_click` closure of `ClickJob::spawn`: sample a target inside the
region, run `human_move_and_click` from the last position (or an off-region
start on the first move) with a fresh entropy RNG (`rng_seed` is `None` in
`spawn_settings`), record the new last position. -/
def do_click (env : JobEnv) (st : JobSt) (b : Bounds) (btn : MButton) :
    List Ev × JobSt :=
  let sp := sample_point b st.rng
  let src := st.lastPos.getD (b.min_x - 40, b.min_y - 40)
  let evs := human_move_and_click env.T env.seed_stream (env.entropy st.moveCount)
      src sp.1 (some b) spawn_settings btn
  (Ev.sample sp.1 :: evs,
   { st with rng := sp.2, lastPos := some sp.1, moveCount := st.moveCount + 1 })

/-- The `while left > 0` loop of the `sleep_between` closure: check the
flag, sleep at most 50 ms, repeat. -/
def sleep_loop (env : JobEnv) (st : JobSt) (left : ℕ) : List Ev × JobSt :=
  if _h : left = 0 then ([], st)
  else
    let f := read_flag env st
    if f.1 = false then (f.2.1, f.2.2)
    else
      let stp := min left 50
      let rest := sleep_loop env f.2.2 (left - stp)
      (f.2.1 ++ (Ev.sleep stp :: rest.1), rest.2)
termination_by left
decreasing_by omega

/-- The `sleep_between` closure: total wait `max secs 0.01` seconds,
truncated to ms, slept in ≤50 ms increments with a flag check each. -/
def sleep_between (env : JobEnv) (st : JobSt) (secs : ℚ) : List Ev × JobSt :=
  let wait := max secs (1/100)
  let ms : ℕ := (⌊wait * 1000⌋).toNat
  sleep_loop env st ms

/-- The inner `loop` of the `Single` arm: flag check, finite-counter check,
click, decrement (`saturating_sub`), randomized inter-click sleep, repeat.
The boolean result is `true` iff the loop exited via `break 'outer`
within the given fuel. -/
def single_loop (env : JobEnv) (b : Bounds) (btn : MButton) (minS maxS : ℚ) :
    ℕ → Option ℕ → JobSt → List Ev × JobSt × Bool
  | 0, _, st => ([], st, false)
  | fuel + 1, finite, st =>
    let f := read_flag env st
    if f.1 = false then (f.2.1, f.2.2, true)
    else if finite = some 0 then (f.2.1, f.2.2, true)
    else
      let c := do_click env f.2.2 b btn
      let finite1 := finite.map (· - 1)
      let mm := if minS ≤ maxS then (minS, maxS) else (maxS, minS)
      let nx := c.2.gen_q mm.1 mm.2
      let sl := sleep_between env nx.2 nx.1
      let rest := single_loop env b btn minS maxS fuel finite1 sl.2
      (f.2.1 ++ c.1 ++ sl.1 ++ rest.1, rest.2.1, rest.2.2)

/-- The `for _ in 0..step.clicks` loop of the `Sequence` arm (intervals
already sorted by the caller, as in the code). -/
def step_clicks (env : JobEnv) (b : Bounds) (btn : MButton) (minS maxS : ℚ) :
    ℕ → JobSt → List Ev × JobSt × Bool
  | 0, st => ([], st, false)
  | n + 1, st =>
    let f := read_flag env st
    if f.1 = false then (f.2.1, f.2.2, true)
    else
      let c := do_click env f.2.2 b btn
      let nx := c.2.gen_q minS maxS
      let sl := sleep_between env nx.2 nx.1
      let rest := step_clicks env b btn minS maxS n sl.2
      (f.2.1 ++ c.1 ++ sl.1 ++ rest.1, rest.2.1, rest.2.2)

/-- The `for step in &steps` loop: per step a flag check, skip when the
step's region is invalid, otherwise sort the interval and run the step's
clicks. -/
def seq_pass (env : JobEnv) : List SequenceStep → JobSt → List Ev × JobSt × Bool
  | [], st => ([], st, false)
  | stp :: rest, st =>
    let f := read_flag env st
    if f.1 = false then (f.2.1, f.2.2, true)
    else if stp.bounds.is_valid = false then
      let r := seq_pass env rest f.2.2
      (f.2.1 ++ r.1, r.2.1, r.2.2)
    else
      let mm := if stp.min_secs ≤ stp.max_secs then (stp.min_secs, stp.max_secs)
                else (stp.max_secs, stp.min_secs)
      let c := step_clicks env stp.bounds stp.button mm.1 mm.2 stp.clicks f.2.2
      if c.2.2 then (f.2.1 ++ c.1, c.2.1, true)
      else
        let r := seq_pass env rest c.2.1
        (f.2.1 ++ c.1 ++ r.1, r.2.1, r.2.2)

/-- The `'cycles` loop: flag check, one pass over the steps, then the
cycle-counter bookkeeping (`break 'outer` when the counter is, or reaches,
zero; infinite when `None`). -/
def cycles_loop (env : JobEnv) (steps : List SequenceStep) :
    ℕ → Option ℕ → JobSt → List Ev × JobSt × Bool
  | 0, _, st => ([], st, false)
  | fuel + 1, cycles, st =>
    let f := read_flag env st
    if f.1 = false then (f.2.1, f.2.2, true)
    else
      let p := seq_pass env steps f.2.2
      if p.2.2 then (f.2.1 ++ p.1, p.2.1, true)
      else
        match cycles with
        | some c =>
          if c = 0 then (f.2.1 ++ p.1, p.2.1, true)
          else if c - 1 = 0 then (f.2.1 ++ p.1, p.2.1, true)
          else
            let r := cycles_loop env steps fuel (some (c - 1)) p.2.1
            (f.2.1 ++ p.1 ++ r.1, r.2.1, r.2.2)
        | none =>
          let r := cycles_loop env steps fuel none p.2.1
          (f.2.1 ++ p.1 ++ r.1, r.2.1, r.2.2)

/-- The `'outer` loop of the spawned thread: flag check, config snapshot,
then the `Single` or `Sequence` arm; absent/invalid region or empty step
list idles 150 ms and re-iterates.  The boolean result is `true` iff the
thread exited (`break 'outer`) within the fuel. -/
def job_run (env : JobEnv) : ℕ → JobSt → List Ev × JobSt × Bool
  | 0, st => ([], st, false)
  | fuel + 1, st =>
    let f := read_flag env st
    if f.1 = false then (f.2.1, f.2.2, true)
    else
      let cf := read_config env f.2.2
      match cf.1.mode with
      | JobMode.single bounds btn minS maxS finite =>
        match bounds with
        | none =>
          let r := job_run env fuel cf.2.2
          (f.2.1 ++ cf.2.1 ++ (Ev.sleep 150 :: r.1), r.2.1, r.2.2)
        | some b =>
          if b.is_valid = false then
            let r := job_run env fuel cf.2.2
            (f.2.1 ++ cf.2.1 ++ (Ev.sleep 150 :: r.1), r.2.1, r.2.2)
          else
            let r := single_loop env b btn minS maxS fuel finite cf.2.2
            (f.2.1 ++ cf.2.1 ++ r.1, r.2.1, r.2.2)
      | JobMode.sequence steps cycles =>
        if steps.isEmpty then
          let r := job_run env fuel cf.2.2
          (f.2.1 ++ cf.2.1 ++ (Ev.sleep 150 :: r.1), r.2.1, r.2.2)
        else
          let r := cycles_loop env steps fuel cycles cf.2.2
          (f.2.1 ++ cf.2.1 ++ r.1, r.2.1, r.2.2)

/-- Total clicks one pass over a step list performs: invalid steps are
skipped, valid ones contribute their click count. -/
def seqClickSum (steps : List SequenceStep) : ℕ :=
  (steps.map fun s => if s.bounds.is_valid then s.clicks else 0).sum

/-- A `Single` snapshot the job idles on: region absent or invalid. -/
def IsIdleSingle : ClickConfig → Prop
  | ⟨JobMode.single none _ _ _ _⟩ => True
  | ⟨JobMode.single (some b) _ _ _ _⟩ => b.is_valid = false
  | ⟨JobMode.sequence _ _⟩ => False

/-! ### Concrete fixtures for closed instances -/

/-- A concrete transcendental oracle, correct at the one value the final
step of a path evaluates the cosine at (`cos π = -1`). -/
def T0 : TransOps := ⟨fun q => if q = pi32 then -1 else 0, fun _ => 0⟩

/-- The constant-`1/2` draw stream (every draw is admissible). -/
def halfStream : ℕ → ℚ := fun _ => 1/2

/-- A fresh RNG over the constant stream. -/
def rng0 : Rng := ⟨halfStream, 0⟩

/-- Initial job-thread state. -/
def st0 : JobSt := ⟨rng0, 0, 0, 0, none⟩

/-- A small valid region. -/
def boxB : Bounds := ⟨0, 10, 0, 10⟩

/-- The inverted region of the spec's example (`min_x=200, max_x=100`). -/
def invB : Bounds := ⟨200, 100, 200, 100⟩

/-- A job environment over the constant stream with the flag always true
and the given config schedule. -/
def baseEnv (cfgs : ℕ → ClickConfig) : JobEnv :=
  ⟨T0, fun _ => halfStream, fun _ => halfStream, halfStream, fun _ => true, cfgs⟩

/-- Schedule for C5: a valid Single region at the first config read, the
region removed (set to `None`) from the second read on. -/
def c5env : JobEnv :=
  baseEnv fun n =>
    if n = 0 then ⟨JobMode.single (some boxB) MButton.left 1 1 none⟩
    else ⟨JobMode.single none MButton.left 1 1 none⟩

/-- Schedule for the amended C5: no region at the first read, a valid one
from the second read on. -/
def c5aenv : JobEnv :=
  baseEnv fun n =>
    if n = 0 then ⟨JobMode.single none MButton.left 1 1 none⟩
    else ⟨JobMode.single (some boxB) MButton.left 1 1 none⟩

/-- A 3-click sequence step on the valid region. -/
def c6step (nm : String) : SequenceStep := ⟨nm, boxB, 3, MButton.left, 1, 2⟩

/-- Sequence environment for C6: two 3-click steps, two cycles. -/
def c6env : JobEnv :=
  baseEnv fun _ => ⟨JobMode.sequence [c6step "a", c6step "b"] (some 2)⟩

/-- Single-mode environment stuck on the inverted region (C8). -/
def c8env : JobEnv :=
  baseEnv fun _ => ⟨JobMode.single (some invB) MButton.left 1 1 none⟩

/-- A step whose region is invalid (skipped in sequence mode). -/
def c8step : SequenceStep := ⟨"bad", invB, 5, MButton.left, 1, 1⟩

/-- A 2-click step on the valid region. -/
def c10step : SequenceStep := ⟨"ok", boxB, 2, MButton.left, 1, 1⟩

/-- Sequence environment for C10: one step, `cycles = Some(0)`. -/
def c10env : JobEnv :=
  baseEnv fun _ => ⟨JobMode.sequence [c10step] (some 0)⟩

/-- A seeded motion profile (for the determinism instances). -/
def seeded_settings : HumanMouseSettings :=
  { default_settings with rng_seed := some 7 }

/-- A job environment whose cancellation flag is already false. -/
def c4env : JobEnv :=
  { baseEnv (fun _ => ⟨JobMode.single (some boxB) MButton.left 1 1 none⟩) with
    flag := fun _ => false }

/-- Upper bound on the total mid-path pause time of one step loop: the
maximal pause per occurrence of the pause index in the iteration list. -/
def pauseBound (pa : Option ℕ) (l : List ℕ) (mp : ℕ) : ℕ :=
  match pa with
  | some pidx => l.count pidx * mp
  | none => 0

/-! ## Lemmas about the RNG draws -/

theorem RngValid.bump {r : Rng} (h : RngValid r) : RngValid r.bump := h

theorem RngValid.u_nonneg {r : Rng} (h : RngValid r) : 0 ≤ r.u := (h r.pos).1

theorem RngValid.u_lt_one {r : Rng} (h : RngValid r) : r.u < 1 := (h r.pos).2

theorem halfStream_valid : RngValid ⟨halfStream, 0⟩ := by
  intro i
  constructor <;> norm_num [halfStream]

theorem gen_range_nat_ge {r : Rng} {a b : ℕ} : a ≤ (r.gen_range_nat a b).1 :=
  Nat.le_add_right _ _

theorem gen_range_nat_le {r : Rng} (h : RngValid r) {a b : ℕ} (hab : a ≤ b) :
    (r.gen_range_nat a b).1 ≤ b := by
  have h0 := h.u_nonneg
  have h1 := h.u_lt_one
  have hcast : (a : ℚ) ≤ (b : ℚ) := by exact_mod_cast hab
  have hspan : (0 : ℚ) < (b : ℚ) + 1 - a := by linarith
  have hlt : r.u * ((b : ℚ) + 1 - a) < (b : ℚ) + 1 - a := by nlinarith
  have hfl : ⌊r.u * ((b : ℚ) + 1 - a)⌋ < (b : ℤ) + 1 - a := by
    apply Int.floor_lt.mpr
    push_cast
    linarith
  simp only [Rng.gen_range_nat]
  omega

theorem gen_range_nat_ho_lt {r : Rng} (h : RngValid r) {a b : ℕ} (hab : a < b) :
    (r.gen_range_nat_ho a b).1 < b := by
  have h0 := h.u_nonneg
  have h1 := h.u_lt_one
  have hcast : (a : ℚ) < (b : ℚ) := by exact_mod_cast hab
  have hspan : (0 : ℚ) < (b : ℚ) - a := by linarith
  have hlt : r.u * ((b : ℚ) - a) < (b : ℚ) - a := by nlinarith
  have hfl : ⌊r.u * ((b : ℚ) - a)⌋ < (b : ℤ) - a := by
    apply Int.floor_lt.mpr
    push_cast
    linarith
  simp only [Rng.gen_range_nat_ho]
  omega

theorem gen_range_int_bounds {r : Rng} (h : RngValid r) {a b : Int} (hab : a ≤ b) :
    a ≤ (r.gen_range_int a b).1 ∧ (r.gen_range_int a b).1 ≤ b := by
  have h0 := h.u_nonneg
  have h1 := h.u_lt_one
  have hcast : (a : ℚ) ≤ (b : ℚ) := by exact_mod_cast hab
  have hspan : (0 : ℚ) < (b : ℚ) - a + 1 := by linarith
  constructor
  · have hnn : 0 ≤ ⌊r.u * ((b : ℚ) - a + 1)⌋ :=
      Int.floor_nonneg.mpr (mul_nonneg h0 (by linarith))
    simp only [Rng.gen_range_int]
    omega
  · have hlt : r.u * ((b : ℚ) - a + 1) < (b : ℚ) - a + 1 := by nlinarith
    have hfl : ⌊r.u * ((b : ℚ) - a + 1)⌋ < b - a + 1 := by
      apply Int.floor_lt.mpr
      push_cast
      linarith
    simp only [Rng.gen_range_int]
    omega

/-! ## Arithmetic of the duration clamp and the step count -/

theorem clamp_ms_bounds (R : ℚ) :
    60 ≤ (⌊min (max R 60) 1600⌋).toNat ∧ (⌊min (max R 60) 1600⌋).toNat ≤ 1600 := by
  have h1 : (60 : ℚ) ≤ min (max R 60) 1600 := le_min (le_max_right R 60) (by norm_num)
  have h2 : min (max R 60) 1600 ≤ 1600 := min_le_right _ _
  have hf1 : (60 : ℤ) ≤ ⌊min (max R 60) 1600⌋ := Int.le_floor.mpr (by exact_mod_cast h1)
  have hf2 : ⌊min (max R 60) 1600⌋ ≤ 1600 := by
    have hle : (⌊min (max R 60) 1600⌋ : ℚ) ≤ 1600 := le_trans (Int.floor_le _) h2
    exact_mod_cast hle
  omega

theorem steps_mul_ge (tm sm : ℕ) (hsm : 1 ≤ sm) :
    tm ≤ (max (tm / max sm 1) 3 + 1) * sm := by
  have hm : max sm 1 = sm := Nat.max_eq_left hsm
  rw [hm]
  have hdm := Nat.div_add_mod tm sm
  have hlt : tm % sm < sm := Nat.mod_lt _ (by omega)
  have h1 : tm < (tm / sm + 1) * sm := by
    have he : (tm / sm + 1) * sm = sm * (tm / sm) + sm := by ring
    omega
  have h2 : (tm / sm + 1) * sm ≤ (max (tm / sm) 3 + 1) * sm :=
    Nat.mul_le_mul_right _ (by omega)
  omega

theorem steps_mul_le (tm sm : ℕ) (h8 : 8 ≤ sm) (h12 : sm ≤ 12) (h60 : 60 ≤ tm)
    (h1600 : tm ≤ 1600) :
    (max (tm / max sm 1) 3 + 1) * sm ≤ 1612 := by
  have hm : max sm 1 = sm := Nat.max_eq_left (by omega)
  rw [hm]
  rcases Nat.le_total (tm / sm) 3 with h | h
  · have hmx : max (tm / sm) 3 = 3 := Nat.max_eq_right h
    rw [hmx]
    omega
  · have hmx : max (tm / sm) 3 = tm / sm := Nat.max_eq_left h
    rw [hmx]
    have hds : tm / sm * sm ≤ tm := Nat.div_mul_le_self tm sm
    have he : (tm / sm + 1) * sm = tm / sm * sm + sm := by ring
    omega

/-! ## Trace algebra -/

theorem totalSleep_nil : totalSleep [] = 0 := rfl

theorem totalSleep_cons (e : Ev) (l : List Ev) :
    totalSleep (e :: l) = e.sleepMs + totalSleep l := by
  simp [totalSleep]

theorem totalSleep_append (a b : List Ev) :
    totalSleep (a ++ b) = totalSleep a + totalSleep b := by
  simp [totalSleep]

theorem movesOf_nil : movesOf [] = [] := rfl

theorem movesOf_append (a b : List Ev) : movesOf (a ++ b) = movesOf a ++ movesOf b := by
  simp [movesOf]

theorem movesOf_cons_move (p : Int × Int) (l : List Ev) :
    movesOf (Ev.move p :: l) = p :: movesOf l := by
  simp [movesOf]

theorem movesOf_cons_sleep (n : ℕ) (l : List Ev) :
    movesOf (Ev.sleep n :: l) = movesOf l := by
  simp [movesOf]

theorem movesOf_click_suffix (b : MButton) (n : ℕ) :
    movesOf [Ev.down b, Ev.sleep n, Ev.up b] = [] := rfl

/-! ## Lemmas about the step loop of `human_move_inner` -/

theorem runSteps_countP (T : TransOps) (bounds : Option Bounds) (s : HumanMouseSettings)
    (pl : InnerPlan) (p : Ev → Bool) (hm : ∀ q, p (Ev.move q) = false)
    (hs : ∀ n, p (Ev.sleep n) = false) :
    ∀ (l : List ℕ) (rng : Rng), (runSteps T bounds s pl l rng).1.countP p = 0
  | [], _ => by simp [runSteps]
  | i :: is, rng => by
    have ih := runSteps_countP T bounds s pl p hm hs is
    simp only [runSteps]
    cases hpa : pl.pause_at with
    | none => simp [List.countP_cons, hm, hs, ih]
    | some pidx =>
      by_cases hi : i = pidx <;>
        simp [hi, List.countP_cons, List.countP_append, hm, hs, ih]

theorem sleepsOf_cons (e : Ev) (l : List Ev) :
    sleepsOf (e :: l) = sleepsOf l + (if e.isSleep then 1 else 0) := by
  simp [sleepsOf, List.countP_cons]

theorem sleepsOf_append (a b : List Ev) : sleepsOf (a ++ b) = sleepsOf a + sleepsOf b := by
  simp [sleepsOf, List.countP_append]

theorem sleepsOf_runSteps_ge (T : TransOps) (bounds : Option Bounds)
    (s : HumanMouseSettings) (pl : InnerPlan) :
    ∀ (l : List ℕ) (rng : Rng), l.length ≤ sleepsOf (runSteps T bounds s pl l rng).1
  | [], _ => by simp [runSteps, sleepsOf]
  | i :: is, rng => by
    have ih := sleepsOf_runSteps_ge T bounds s pl is
    simp only [runSteps]
    cases hpa : pl.pause_at with
    | none =>
      have h2 := ih (rng.gen_range_q (-pl.jitter_amp) pl.jitter_amp).2
      simp [List.nil_append, sleepsOf_cons, Ev.isSleep, List.length_cons]
      omega
    | some pidx =>
      by_cases hi : i = pidx
      · have h2 := ih ((rng.gen_range_q (-pl.jitter_amp) pl.jitter_amp).2.gen_range_nat
            s.min_pause_ms s.max_pause_ms).2
        simp [hi, List.singleton_append, sleepsOf_cons, Ev.isSleep, List.length_cons]
        omega
      · have h2 := ih (rng.gen_range_q (-pl.jitter_amp) pl.jitter_amp).2
        simp [if_neg hi, List.nil_append, sleepsOf_cons, Ev.isSleep, List.length_cons]
        omega

theorem totalSleep_runSteps_ge (T : TransOps) (bounds : Option Bounds)
    (s : HumanMouseSettings) (pl : InnerPlan) :
    ∀ (l : List ℕ) (rng : Rng),
      l.length * pl.step_ms ≤ totalSleep (runSteps T bounds s pl l rng).1
  | [], _ => by simp [runSteps, totalSleep]
  | i :: is, rng => by
    have ih := totalSleep_runSteps_ge T bounds s pl is
    have he : (is.length + 1) * pl.step_ms = is.length * pl.step_ms + pl.step_ms := by ring
    simp only [runSteps]
    cases hpa : pl.pause_at with
    | none =>
      have h2 := ih (rng.gen_range_q (-pl.jitter_amp) pl.jitter_amp).2
      simp [List.nil_append, totalSleep_cons, Ev.sleepMs, List.length_cons]
      omega
    | some pidx =>
      by_cases hi : i = pidx
      · have h2 := ih ((rng.gen_range_q (-pl.jitter_amp) pl.jitter_amp).2.gen_range_nat
            s.min_pause_ms s.max_pause_ms).2
        simp [hi, List.singleton_append, totalSleep_cons, Ev.sleepMs, List.length_cons]
        omega
      · have h2 := ih (rng.gen_range_q (-pl.jitter_amp) pl.jitter_amp).2
        simp [if_neg hi, List.nil_append, totalSleep_cons, Ev.sleepMs, List.length_cons]
        omega

theorem totalSleep_runSteps_pause_none (T : TransOps) (bounds : Option Bounds)
    (s : HumanMouseSettings) (pl : InnerPlan) (hpa : pl.pause_at = none) :
    ∀ (l : List ℕ) (rng : Rng),
      totalSleep (runSteps T bounds s pl l rng).1 = l.length * pl.step_ms
  | [], _ => by simp [runSteps, totalSleep]
  | i :: is, rng => by
    have ih := totalSleep_runSteps_pause_none T bounds s pl hpa is
      (rng.gen_range_q (-pl.jitter_amp) pl.jitter_amp).2
    simp only [runSteps, hpa]
    simp [List.nil_append, totalSleep_cons, Ev.sleepMs, List.length_cons, ih]
    ring

theorem totalSleep_runSteps_le (T : TransOps) (bounds : Option Bounds)
    (s : HumanMouseSettings) (pl : InnerPlan) (hp : s.min_pause_ms ≤ s.max_pause_ms) :
    ∀ (l : List ℕ) (rng : Rng), RngValid rng →
      totalSleep (runSteps T bounds s pl l rng).1 ≤
        l.length * pl.step_ms + pauseBound pl.pause_at l s.max_pause_ms
  | [], _, _ => by simp [runSteps, totalSleep, pauseBound]
  | i :: is, rng, hv => by
    have ih := totalSleep_runSteps_le T bounds s pl hp is
    have he : (is.length + 1) * pl.step_ms = is.length * pl.step_ms + pl.step_ms := by ring
    simp only [runSteps]
    cases hpa : pl.pause_at with
    | none =>
      have h2 := ih (rng.gen_range_q (-pl.jitter_amp) pl.jitter_amp).2 hv
      rw [hpa] at h2
      simp only [pauseBound] at h2 ⊢
      simp only [List.nil_append, totalSleep_cons, Ev.sleepMs, List.length_cons]
      omega
    | some pidx =>
      by_cases hi : i = pidx
      · subst hi
        have hv' : RngValid (rng.gen_range_q (-pl.jitter_amp) pl.jitter_amp).2 := hv
        have hpause : ((rng.gen_range_q (-pl.jitter_amp) pl.jitter_amp).2.gen_range_nat
            s.min_pause_ms s.max_pause_ms).1 ≤ s.max_pause_ms :=
          gen_range_nat_le hv' hp
        have h2 := ih ((rng.gen_range_q (-pl.jitter_amp) pl.jitter_amp).2.gen_range_nat
            s.min_pause_ms s.max_pause_ms).2 hv
        rw [hpa] at h2
        simp only [pauseBound] at h2 ⊢
        have hc : (i :: is).count i = is.count i + 1 := List.count_cons_self i is
        rw [hc]
        have he2 : (is.count i + 1) * s.max_pause_ms
            = is.count i * s.max_pause_ms + s.max_pause_ms := by ring
        simp [List.singleton_append, totalSleep_cons, Ev.sleepMs, List.length_cons]
        omega
      · have h2 := ih (rng.gen_range_q (-pl.jitter_amp) pl.jitter_amp).2 hv
        rw [hpa] at h2
        simp only [pauseBound] at h2 ⊢
        have hc : (i :: is).count pidx = is.count pidx :=
          List.count_cons_of_ne (by omega) is
        rw [hc]
        simp [if_neg hi, List.nil_append, totalSleep_cons, Ev.sleepMs, List.length_cons]
        omega

theorem movesOf_runSteps_cons (T : TransOps) (bounds : Option Bounds)
    (s : HumanMouseSettings) (pl : InnerPlan) (i : ℕ) (is : List ℕ) (rng : Rng) :
    ∃ jr rng', movesOf (runSteps T bounds s pl (i :: is) rng).1 =
      stepPoint T bounds pl i jr :: movesOf (runSteps T bounds s pl is rng').1 := by
  simp only [runSteps]
  cases hpa : pl.pause_at with
  | none =>
    refine ⟨(rng.gen_range_q (-pl.jitter_amp) pl.jitter_amp).1,
      (rng.gen_range_q (-pl.jitter_amp) pl.jitter_amp).2, ?_⟩
    simp [movesOf_cons_move, movesOf_cons_sleep, List.nil_append]
  | some pidx =>
    by_cases hi : i = pidx
    · refine ⟨(rng.gen_range_q (-pl.jitter_amp) pl.jitter_amp).1,
        ((rng.gen_range_q (-pl.jitter_amp) pl.jitter_amp).2.gen_range_nat
          s.min_pause_ms s.max_pause_ms).2, ?_⟩
      simp [hi, movesOf_cons_move, movesOf_cons_sleep, List.singleton_append]
    · refine ⟨(rng.gen_range_q (-pl.jitter_amp) pl.jitter_amp).1,
        (rng.gen_range_q (-pl.jitter_amp) pl.jitter_amp).2, ?_⟩
      simp [if_neg hi, movesOf_cons_move, movesOf_cons_sleep, List.nil_append]

theorem movesOf_runSteps_length (T : TransOps) (bounds : Option Bounds)
    (s : HumanMouseSettings) (pl : InnerPlan) :
    ∀ (l : List ℕ) (rng : Rng),
      (movesOf (runSteps T bounds s pl l rng).1).length = l.length
  | [], _ => by simp [runSteps, movesOf]
  | i :: is, rng => by
    obtain ⟨jr, rng', h⟩ := movesOf_runSteps_cons T bounds s pl i is rng
    rw [h]
    simp [movesOf_runSteps_length T bounds s pl is rng']

theorem movesOf_runSteps_getLast (T : TransOps) (bounds : Option Bounds)
    (s : HumanMouseSettings) (pl : InnerPlan) (n : ℕ) (A : Int × Int)
    (hA : ∀ jr, stepPoint T bounds pl n jr = A) :
    ∀ (l : List ℕ) (rng : Rng), l.getLast? = some n →
      (movesOf (runSteps T bounds s pl l rng).1).getLast? = some A
  | [], _, h => by simp at h
  | [i], rng, h => by
    obtain ⟨jr, rng', hm⟩ := movesOf_runSteps_cons T bounds s pl i [] rng
    have hi : i = n := by simpa using h
    rw [hm]
    simp [runSteps, movesOf, hi, hA]
  | i :: j :: t, rng, h => by
    obtain ⟨jr, rng', hm⟩ := movesOf_runSteps_cons T bounds s pl i (j :: t) rng
    have hlast : (j :: t).getLast? = some n := by
      rw [← h]
      exact List.getLast?_cons_cons.symm
    have ih := movesOf_runSteps_getLast T bounds s pl n A hA (j :: t) rng' hlast
    rw [hm]
    have hlen : (movesOf (runSteps T bounds s pl (j :: t) rng').1).length = t.length + 1 :=
      movesOf_runSteps_length T bounds s pl (j :: t) rng'
    cases hM : movesOf (runSteps T bounds s pl (j :: t) rng').1 with
    | nil => rw [hM] at hlen; simp at hlen
    | cons m ms =>
      rw [hM] at ih
      rw [List.getLast?_cons_cons]
      exact ih

/-! ## The last emitted point of one inner path -/

theorem cubic_bezier_one (p0 p1 p2 p3 : ℚ × ℚ) : cubic_bezier p0 p1 p2 p3 1 = p3 := by
  simp only [cubic_bezier, Prod.ext_iff]
  constructor <;> ring

theorem fsqrt_zero : fsqrt 0 = 0 := by
  simp [fsqrt]

theorem ease_one (T : TransOps) (hcos : T.cos pi32 = -1) : ease_in_out T 1 = 1 := by
  rw [ease_in_out, mul_one, hcos]
  norm_num

theorem stepXY_last (T : TransOps) (pl : InnerPlan) (hcos : T.cos pi32 = -1)
    (hst : pl.steps ≠ 0) (jr : ℚ) : stepXY T pl pl.steps jr = pl.p3 := by
  have hq : ((pl.steps : ℚ)) ≠ 0 := Nat.cast_ne_zero.mpr hst
  have hpos : (0 : ℚ) < (pl.steps : ℚ) := by
    have := Nat.pos_of_ne_zero hst
    exact_mod_cast this
  have hraw : ((pl.steps : ℚ)) / ((pl.steps : ℚ)) = 1 := div_self hq
  have hmin : min ((1 : ℚ) + 1 / (pl.steps : ℚ)) 1 = 1 := by
    apply min_eq_right
    have h1 : (0 : ℚ) ≤ 1 / (pl.steps : ℚ) := by positivity
    linarith
  simp only [stepXY, hraw, ease_one T hcos, hmin, cubic_bezier_one]
  simp [Prod.ext_iff, fsqrt_zero]

theorem stepPoint_last (T : TransOps) (bounds : Option Bounds) (pl : InnerPlan)
    (dst : Int × Int) (hcos : T.cos pi32 = -1) (hst : pl.steps ≠ 0)
    (hp3 : pl.p3 = ((dst.1 : ℚ), (dst.2 : ℚ))) (jr : ℚ) :
    stepPoint T bounds pl pl.steps jr = applyClamp bounds dst := by
  rw [stepPoint, stepXY_last T pl hcos hst jr, hp3]
  simp

/-! ## Facts about the pre-loop plan of `human_move_inner` -/

theorem innerPlan_p3 (src dst : Int × Int) (s : HumanMouseSettings) (rng : Rng) :
    ((innerPlan src dst s rng).1).p3 = ((dst.1 : ℚ), (dst.2 : ℚ)) := rfl

theorem innerPlan_steps_eq (src dst : Int × Int) (s : HumanMouseSettings) (rng : Rng) :
    ((innerPlan src dst s rng).1).steps =
      max (((innerPlan src dst s rng).1).total_ms
        / max (((innerPlan src dst s rng).1).step_ms) 1) 3 := rfl

theorem innerPlan_steps_pos (src dst : Int × Int) (s : HumanMouseSettings) (rng : Rng) :
    3 ≤ ((innerPlan src dst s rng).1).steps :=
  le_max_right _ _

theorem innerPlan_total_bounds (src dst : Int × Int) (s : HumanMouseSettings) (rng : Rng) :
    60 ≤ ((innerPlan src dst s rng).1).total_ms ∧
      ((innerPlan src dst s rng).1).total_ms ≤ 1600 :=
  clamp_ms_bounds _

theorem innerPlan_step_ms_ge (src dst : Int × Int) (s : HumanMouseSettings) (rng : Rng) :
    8 ≤ ((innerPlan src dst s rng).1).step_ms :=
  gen_range_nat_ge

theorem innerPlan_step_ms_le (src dst : Int × Int) (s : HumanMouseSettings) (rng : Rng)
    (hv : RngValid rng) : ((innerPlan src dst s rng).1).step_ms ≤ 12 := by
  show (((make_bezier_with_wiggle src dst rng).2.gen_range_q (-1) 1).2.gen_range_nat
      8 12).1 ≤ 12
  have hv2 : RngValid (((make_bezier_with_wiggle src dst rng).2.gen_range_q (-1) 1).2) := hv
  apply gen_range_nat_le hv2
  norm_num

theorem RngValid.of_stream {r r' : Rng} (h : RngValid r) (he : r'.stream = r.stream) :
    RngValid r' := by
  intro i
  rw [he]
  exact h i

theorem innerPlan_stream (src dst : Int × Int) (s : HumanMouseSettings) (rng : Rng) :
    ((innerPlan src dst s rng).2).stream = rng.stream := by
  simp only [innerPlan]
  split <;> rfl

theorem innerPlan_mul_ge (src dst : Int × Int) (s : HumanMouseSettings) (rng : Rng) :
    ((innerPlan src dst s rng).1).total_ms ≤
      (((innerPlan src dst s rng).1).steps + 1) * ((innerPlan src dst s rng).1).step_ms := by
  have hsm := innerPlan_step_ms_ge src dst s rng
  have h := steps_mul_ge ((innerPlan src dst s rng).1).total_ms
      ((innerPlan src dst s rng).1).step_ms (by omega)
  rw [← innerPlan_steps_eq] at h
  exact h

theorem innerPlan_mul_le (src dst : Int × Int) (s : HumanMouseSettings) (rng : Rng)
    (hv : RngValid rng) :
    (((innerPlan src dst s rng).1).steps + 1) * ((innerPlan src dst s rng).1).step_ms
      ≤ 1612 := by
  have hsm8 := innerPlan_step_ms_ge src dst s rng
  have hsm12 := innerPlan_step_ms_le src dst s rng hv
  have htm := innerPlan_total_bounds src dst s rng
  have h := steps_mul_le ((innerPlan src dst s rng).1).total_ms
      ((innerPlan src dst s rng).1).step_ms hsm8 hsm12 htm.1 htm.2
  rw [← innerPlan_steps_eq] at h
  exact h

/-! ## Lemmas about one whole inner path -/

theorem human_move_inner_countP (T : TransOps) (bounds : Option Bounds)
    (s : HumanMouseSettings) (p : Ev → Bool) (hm : ∀ q, p (Ev.move q) = false)
    (hs : ∀ n, p (Ev.sleep n) = false) (src dst : Int × Int) (rng : Rng) :
    (human_move_inner T src dst bounds s rng).1.countP p = 0 :=
  runSteps_countP T bounds s (innerPlan src dst s rng).1 p hm hs
    (List.range (((innerPlan src dst s rng).1).steps + 1)) (innerPlan src dst s rng).2

theorem human_move_inner_sleep_ge (T : TransOps) (bounds : Option Bounds)
    (s : HumanMouseSettings) (src dst : Int × Int) (rng : Rng) :
    60 ≤ totalSleep (human_move_inner T src dst bounds s rng).1 := by
  have h := totalSleep_runSteps_ge T bounds s (innerPlan src dst s rng).1
      (List.range (((innerPlan src dst s rng).1).steps + 1)) (innerPlan src dst s rng).2
  rw [List.length_range] at h
  have htm := (innerPlan_total_bounds src dst s rng).1
  have hmul := innerPlan_mul_ge src dst s rng
  show 60 ≤ totalSleep (runSteps T bounds s (innerPlan src dst s rng).1
      (List.range (((innerPlan src dst s rng).1).steps + 1)) (innerPlan src dst s rng).2).1
  exact le_trans htm (le_trans hmul h)

theorem human_move_inner_sleep_le (T : TransOps) (bounds : Option Bounds)
    (s : HumanMouseSettings) (src dst : Int × Int) (rng : Rng) (hv : RngValid rng)
    (hp : s.min_pause_ms ≤ s.max_pause_ms) :
    totalSleep (human_move_inner T src dst bounds s rng).1 ≤ 1612 + s.max_pause_ms := by
  have hv2 : RngValid (innerPlan src dst s rng).2 :=
    hv.of_stream (innerPlan_stream src dst s rng)
  have h := totalSleep_runSteps_le T bounds s (innerPlan src dst s rng).1 hp
      (List.range (((innerPlan src dst s rng).1).steps + 1)) (innerPlan src dst s rng).2 hv2
  rw [List.length_range] at h
  have hpb : pauseBound ((innerPlan src dst s rng).1).pause_at
      (List.range (((innerPlan src dst s rng).1).steps + 1)) s.max_pause_ms
      ≤ s.max_pause_ms := by
    rcases ((innerPlan src dst s rng).1).pause_at with _ | pidx
    · simp [pauseBound]
    · simp only [pauseBound]
      have hc : (List.range (((innerPlan src dst s rng).1).steps + 1)).count pidx ≤ 1 :=
        List.nodup_iff_count_le_one.mp (List.nodup_range _) pidx
      calc (List.range (((innerPlan src dst s rng).1).steps + 1)).count pidx
            * s.max_pause_ms
          ≤ 1 * s.max_pause_ms := Nat.mul_le_mul_right _ hc
        _ = s.max_pause_ms := one_mul _
  have hmul := innerPlan_mul_le src dst s rng hv
  show totalSleep (runSteps T bounds s (innerPlan src dst s rng).1
      (List.range (((innerPlan src dst s rng).1).steps + 1)) (innerPlan src dst s rng).2).1
      ≤ 1612 + s.max_pause_ms
  exact le_trans h (add_le_add hmul hpb)

theorem human_move_inner_sleeps_count (T : TransOps) (bounds : Option Bounds)
    (s : HumanMouseSettings) (src dst : Int × Int) (rng : Rng) :
    4 ≤ sleepsOf (human_move_inner T src dst bounds s rng).1 := by
  have h := sleepsOf_runSteps_ge T bounds s (innerPlan src dst s rng).1
      (List.range (((innerPlan src dst s rng).1).steps + 1)) (innerPlan src dst s rng).2
  rw [List.length_range] at h
  have hst := innerPlan_steps_pos src dst s rng
  show 4 ≤ sleepsOf (runSteps T bounds s (innerPlan src dst s rng).1
      (List.range (((innerPlan src dst s rng).1).steps + 1)) (innerPlan src dst s rng).2).1
  omega

theorem human_move_inner_moves (T : TransOps) (bounds : Option Bounds)
    (s : HumanMouseSettings) (src dst : Int × Int) (rng : Rng)
    (hcos : T.cos pi32 = -1) :
    movesOf (human_move_inner T src dst bounds s rng).1 ≠ [] ∧
    (movesOf (human_move_inner T src dst bounds s rng).1).getLast? =
      some (applyClamp bounds dst) := by
  have hst : ((innerPlan src dst s rng).1).steps ≠ 0 := by
    have := innerPlan_steps_pos src dst s rng
    omega
  have hA : ∀ jr, stepPoint T bounds (innerPlan src dst s rng).1
      ((innerPlan src dst s rng).1).steps jr = applyClamp bounds dst :=
    fun jr => stepPoint_last T bounds _ dst hcos hst (innerPlan_p3 src dst s rng) jr
  have hlast : (List.range (((innerPlan src dst s rng).1).steps + 1)).getLast?
      = some ((innerPlan src dst s rng).1).steps := by
    rw [List.range_succ]
    simp
  constructor
  · have hlen : (movesOf (human_move_inner T src dst bounds s rng).1).length
        = (List.range (((innerPlan src dst s rng).1).steps + 1)).length :=
      movesOf_runSteps_length T bounds s (innerPlan src dst s rng).1
        (List.range (((innerPlan src dst s rng).1).steps + 1)) (innerPlan src dst s rng).2
    rw [List.length_range] at hlen
    intro hnil
    rw [hnil] at hlen
    simp at hlen
  · exact movesOf_runSteps_getLast T bounds s (innerPlan src dst s rng).1
      ((innerPlan src dst s rng).1).steps (applyClamp bounds dst) hA
      (List.range (((innerPlan src dst s rng).1).steps + 1)) (innerPlan src dst s rng).2 hlast

/-! ## Stream preservation through the synthesizer -/

theorem runSteps_stream (T : TransOps) (bounds : Option Bounds) (s : HumanMouseSettings)
    (pl : InnerPlan) :
    ∀ (l : List ℕ) (rng : Rng), ((runSteps T bounds s pl l rng).2).stream = rng.stream
  | [], _ => rfl
  | i :: is, rng => by
    simp only [runSteps]
    cases hpa : pl.pause_at with
    | none =>
      rw [runSteps_stream T bounds s pl is]
      rfl
    | some pidx =>
      by_cases hi : i = pidx
      · simp only [hi, if_pos rfl]
        rw [runSteps_stream T bounds s pl is]
        rfl
      · simp only [if_neg hi]
        rw [runSteps_stream T bounds s pl is]
        rfl

theorem human_move_inner_stream (T : TransOps) (bounds : Option Bounds)
    (s : HumanMouseSettings) (src dst : Int × Int) (rng : Rng) :
    ((human_move_inner T src dst bounds s rng).2).stream = rng.stream :=
  (runSteps_stream T bounds s (innerPlan src dst s rng).1
    (List.range (((innerPlan src dst s rng).1).steps + 1))
    (innerPlan src dst s rng).2).trans (innerPlan_stream src dst s rng)

theorem maybe_overshoot_stream (dst src : Int × Int) (s : HumanMouseSettings) (rng : Rng) :
    ((maybe_overshoot dst src s rng).2).stream = rng.stream := by
  simp only [maybe_overshoot]
  split <;> rfl

/-! ## Lemmas about the movement part of `human_move_and_click` -/

theorem human_move_main_countP (T : TransOps) (p : Ev → Bool)
    (hm : ∀ q, p (Ev.move q) = false) (hs : ∀ n, p (Ev.sleep n) = false)
    (src1 dst : Int × Int) (bounds : Option Bounds) (s : HumanMouseSettings) (rng : Rng) :
    (human_move_main T src1 dst bounds s rng).1.countP p = 0 := by
  have hIP : ∀ (a b : Int × Int) (bo : Option Bounds) (r : Rng),
      (human_move_inner T a b bo s r).1.countP p = 0 :=
    fun a b bo r => human_move_inner_countP T bo s p hm hs a b r
  simp only [human_move_main]
  split
  · simp [List.countP_append, List.countP_cons, hIP, hs]
  · simp [hIP]

theorem human_move_main_sleep_ge (T : TransOps) (src1 dst : Int × Int)
    (bounds : Option Bounds) (s : HumanMouseSettings) (rng : Rng) :
    60 ≤ totalSleep (human_move_main T src1 dst bounds s rng).1 := by
  have hIP : ∀ (a b : Int × Int) (bo : Option Bounds) (r : Rng),
      60 ≤ totalSleep (human_move_inner T a b bo s r).1 :=
    fun a b bo r => human_move_inner_sleep_ge T bo s a b r
  simp only [human_move_main]
  split
  · simp only [totalSleep_append, totalSleep_cons, Ev.sleepMs]
    have h1 := hIP src1 (maybe_overshoot dst src1 s rng).1 bounds
      (maybe_overshoot dst src1 s rng).2
    omega
  · exact hIP src1 dst bounds (maybe_overshoot dst src1 s rng).2

theorem human_move_main_sleep_le (T : TransOps) (src1 dst : Int × Int)
    (bounds : Option Bounds) (s : HumanMouseSettings) (rng : Rng) (hv : RngValid rng)
    (hp : s.min_pause_ms ≤ s.max_pause_ms) :
    totalSleep (human_move_main T src1 dst bounds s rng).1
      ≤ 2 * (1612 + s.max_pause_ms) + 39 := by
  have hvo : RngValid (maybe_overshoot dst src1 s rng).2 :=
    hv.of_stream (maybe_overshoot_stream dst src1 s rng)
  simp only [human_move_main]
  split
  · have h1 := human_move_inner_sleep_le T bounds s src1
      (maybe_overshoot dst src1 s rng).1 (maybe_overshoot dst src1 s rng).2 hvo hp
    have hv1 : RngValid (human_move_inner T src1 (maybe_overshoot dst src1 s rng).1
        bounds s (maybe_overshoot dst src1 s rng).2).2 :=
      hvo.of_stream (human_move_inner_stream T bounds s _ _ _)
    have hst : ((human_move_inner T src1 (maybe_overshoot dst src1 s rng).1
        bounds s (maybe_overshoot dst src1 s rng).2).2.gen_range_nat_ho 0 20).1 < 20 :=
      gen_range_nat_ho_lt hv1 (by norm_num)
    have hv2 : RngValid ((human_move_inner T src1 (maybe_overshoot dst src1 s rng).1
        bounds s (maybe_overshoot dst src1 s rng).2).2.gen_range_nat_ho 0 20).2 := hv1
    have h3 := human_move_inner_sleep_le T bounds s (maybe_overshoot dst src1 s rng).1
      dst ((human_move_inner T src1 (maybe_overshoot dst src1 s rng).1
        bounds s (maybe_overshoot dst src1 s rng).2).2.gen_range_nat_ho 0 20).2 hv2 hp
    simp only [totalSleep_append, totalSleep_cons, Ev.sleepMs]
    omega
  · have h1 := human_move_inner_sleep_le T bounds s src1 dst
      (maybe_overshoot dst src1 s rng).2 hvo hp
    omega

theorem human_move_main_stream (T : TransOps) (src1 dst : Int × Int)
    (bounds : Option Bounds) (s : HumanMouseSettings) (rng : Rng) :
    ((human_move_main T src1 dst bounds s rng).2).stream = rng.stream := by
  simp only [human_move_main]
  split
  · rw [human_move_inner_stream]
    show ((human_move_inner T src1 (maybe_overshoot dst src1 s rng).1
        bounds s (maybe_overshoot dst src1 s rng).2).2).stream = rng.stream
    rw [human_move_inner_stream, maybe_overshoot_stream]
  · rw [human_move_inner_stream, maybe_overshoot_stream]

theorem human_move_main_moves (T : TransOps) (src1 dst : Int × Int)
    (bounds : Option Bounds) (s : HumanMouseSettings) (rng : Rng)
    (hcos : T.cos pi32 = -1) :
    movesOf (human_move_main T src1 dst bounds s rng).1 ≠ [] ∧
    (movesOf (human_move_main T src1 dst bounds s rng).1).getLast? =
      some (applyClamp bounds dst) := by
  simp only [human_move_main]
  split
  · have hm3 := human_move_inner_moves T bounds s (maybe_overshoot dst src1 s rng).1 dst
      ((human_move_inner T src1 (maybe_overshoot dst src1 s rng).1
        bounds s (maybe_overshoot dst src1 s rng).2).2.gen_range_nat_ho 0 20).2 hcos
    rw [movesOf_append, movesOf_cons_sleep]
    constructor
    · intro hnil
      rcases List.append_eq_nil.mp hnil with ⟨_, h2⟩
      exact hm3.1 h2
    · rw [List.getLast?_append_of_ne_nil _ hm3.1]
      exact hm3.2
  · exact human_move_inner_moves T bounds s src1 dst (maybe_overshoot dst src1 s rng).2 hcos

/-! ## Lemmas about the movement part of `human_move_and_click` -/

theorem human_move_part_countP (T : TransOps) (p : Ev → Bool)
    (hm : ∀ q, p (Ev.move q) = false) (hs : ∀ n, p (Ev.sleep n) = false)
    (src dst : Int × Int) (bounds : Option Bounds) (s : HumanMouseSettings) (rng : Rng) :
    (human_move_part T src dst bounds s rng).1.countP p = 0 := by
  rcases bounds with _ | b
  · exact human_move_main_countP T p hm hs src dst none s rng
  · simp only [human_move_part]
    by_cases hc : b.contains src
    · simp only [hc, if_true]
      exact human_move_main_countP T p hm hs src dst (some b) s rng
    · simp only [hc, Bool.false_eq_true, if_false]
      rw [List.countP_append, human_move_inner_countP T none s p hm hs,
        human_move_main_countP T p hm hs]

theorem human_move_part_sleep_ge (T : TransOps) (src dst : Int × Int)
    (bounds : Option Bounds) (s : HumanMouseSettings) (rng : Rng) :
    60 ≤ totalSleep (human_move_part T src dst bounds s rng).1 := by
  rcases bounds with _ | b
  · exact human_move_main_sleep_ge T src dst none s rng
  · simp only [human_move_part]
    by_cases hc : b.contains src
    · simp only [hc, if_true]
      exact human_move_main_sleep_ge T src dst (some b) s rng
    · simp only [hc, Bool.false_eq_true, if_false]
      rw [totalSleep_append]
      have h1 := human_move_main_sleep_ge T (b.nearestVal src) dst (some b) s
        (human_move_inner T src (b.nearestVal src) none s rng).2
      omega

theorem human_move_part_sleep_le (T : TransOps) (src dst : Int × Int)
    (bounds : Option Bounds) (s : HumanMouseSettings) (rng : Rng) (hv : RngValid rng)
    (hp : s.min_pause_ms ≤ s.max_pause_ms) :
    totalSleep (human_move_part T src dst bounds s rng).1
      ≤ 3 * (1612 + s.max_pause_ms) + 39 := by
  rcases bounds with _ | b
  · have h := human_move_main_sleep_le T src dst none s rng hv hp
    show totalSleep (human_move_main T src dst none s rng).1
        ≤ 3 * (1612 + s.max_pause_ms) + 39
    omega
  · simp only [human_move_part]
    by_cases hc : b.contains src
    · simp only [hc, if_true]
      have h := human_move_main_sleep_le T src dst (some b) s rng hv hp
      omega
    · simp only [hc, Bool.false_eq_true, if_false]
      rw [totalSleep_append]
      have h1 := human_move_inner_sleep_le T none s src (b.nearestVal src) rng hv hp
      have hv2 : RngValid (human_move_inner T src (b.nearestVal src) none s rng).2 :=
        hv.of_stream (human_move_inner_stream T none s _ _ _)
      have h2 := human_move_main_sleep_le T (b.nearestVal src) dst (some b) s
        (human_move_inner T src (b.nearestVal src) none s rng).2 hv2 hp
      omega

theorem human_move_part_moves (T : TransOps) (src dst : Int × Int)
    (bounds : Option Bounds) (s : HumanMouseSettings) (rng : Rng)
    (hcos : T.cos pi32 = -1) :
    movesOf (human_move_part T src dst bounds s rng).1 ≠ [] ∧
    (movesOf (human_move_part T src dst bounds s rng).1).getLast? =
      some (applyClamp bounds dst) := by
  rcases bounds with _ | b
  · exact human_move_main_moves T src dst none s rng hcos
  · simp only [human_move_part]
    by_cases hc : b.contains src
    · simp only [hc, if_true]
      exact human_move_main_moves T src dst (some b) s rng hcos
    · simp only [hc, Bool.false_eq_true, if_false]
      have hm := human_move_main_moves T (b.nearestVal src) dst (some b) s
        (human_move_inner T src (b.nearestVal src) none s rng).2 hcos
      rw [movesOf_append]
      constructor
      · intro hnil
        rcases List.append_eq_nil.mp hnil with ⟨_, h2⟩
        exact hm.1 h2
      · rw [List.getLast?_append_of_ne_nil _ hm.1]
        exact hm.2

theorem human_move_part_sleeps_ge (T : TransOps) (src dst : Int × Int)
    (bounds : Option Bounds) (s : HumanMouseSettings) (rng : Rng) :
    4 ≤ sleepsOf (human_move_part T src dst bounds s rng).1 := by
  have hmain : ∀ (a b : Int × Int) (bo : Option Bounds) (r : Rng),
      4 ≤ sleepsOf (human_move_main T a b bo s r).1 := by
    intro a c bo r
    simp only [human_move_main]
    split
    · rw [sleepsOf_append, sleepsOf_cons]
      have h1 := human_move_inner_sleeps_count T bo s a
        (maybe_overshoot c a s r).1 (maybe_overshoot c a s r).2
      omega
    · exact human_move_inner_sleeps_count T bo s a c (maybe_overshoot c a s r).2
  rcases bounds with _ | b
  · exact hmain src dst none rng
  · simp only [human_move_part]
    by_cases hc : b.contains src
    · simp only [hc, if_true]
      exact hmain src dst (some b) rng
    · simp only [hc, Bool.false_eq_true, if_false]
      rw [sleepsOf_append]
      have h1 := hmain (b.nearestVal src) dst (some b)
        (human_move_inner T src (b.nearestVal src) none s rng).2
      omega

/-! ## Lemmas about `human_move_and_click` as a whole -/

theorem human_move_and_click_countP (T : TransOps) (seed_stream : ℕ → ℕ → ℚ)
    (entropy : ℕ → ℚ) (src dst : Int × Int) (bounds : Option Bounds)
    (s : HumanMouseSettings) (btn : MButton) (p : Ev → Bool)
    (hm : ∀ q, p (Ev.move q) = false) (hs : ∀ n, p (Ev.sleep n) = false)
    (hd : ∀ b, p (Ev.down b) = false) (hu : ∀ b, p (Ev.up b) = false) :
    (human_move_and_click T seed_stream entropy src dst bounds s btn).countP p = 0 := by
  simp only [human_move_and_click]
  rw [List.countP_append, human_move_part_countP T p hm hs]
  simp [List.countP_cons, hd, hu, hs]

theorem human_move_and_click_clicks (T : TransOps) (seed_stream : ℕ → ℕ → ℚ)
    (entropy : ℕ → ℚ) (src dst : Int × Int) (bounds : Option Bounds)
    (s : HumanMouseSettings) (btn : MButton) :
    clicksOf (human_move_and_click T seed_stream entropy src dst bounds s btn) = 1 := by
  simp only [human_move_and_click, clicksOf]
  rw [List.countP_append,
    human_move_part_countP T Ev.isDown (fun _ => rfl) (fun _ => rfl)]
  simp [List.countP_cons, Ev.isDown]

theorem human_move_and_click_flagReads (T : TransOps) (seed_stream : ℕ → ℕ → ℚ)
    (entropy : ℕ → ℚ) (src dst : Int × Int) (bounds : Option Bounds)
    (s : HumanMouseSettings) (btn : MButton) :
    flagReadsOf (human_move_and_click T seed_stream entropy src dst bounds s btn) = 0 :=
  human_move_and_click_countP T seed_stream entropy src dst bounds s btn Ev.isFlagRead
    (fun _ => rfl) (fun _ => rfl) (fun _ => rfl) (fun _ => rfl)

theorem human_move_and_click_configReads (T : TransOps) (seed_stream : ℕ → ℕ → ℚ)
    (entropy : ℕ → ℚ) (src dst : Int × Int) (bounds : Option Bounds)
    (s : HumanMouseSettings) (btn : MButton) :
    configReadsOf (human_move_and_click T seed_stream entropy src dst bounds s btn) = 0 :=
  human_move_and_click_countP T seed_stream entropy src dst bounds s btn Ev.isConfigRead
    (fun _ => rfl) (fun _ => rfl) (fun _ => rfl) (fun _ => rfl)

theorem human_move_and_click_samples (T : TransOps) (seed_stream : ℕ → ℕ → ℚ)
    (entropy : ℕ → ℚ) (src dst : Int × Int) (bounds : Option Bounds)
    (s : HumanMouseSettings) (btn : MButton) :
    samplesOf (human_move_and_click T seed_stream entropy src dst bounds s btn) = 0 :=
  human_move_and_click_countP T seed_stream entropy src dst bounds s btn Ev.isSample
    (fun _ => rfl) (fun _ => rfl) (fun _ => rfl) (fun _ => rfl)

theorem human_move_and_click_sleeps_ge (T : TransOps) (seed_stream : ℕ → ℕ → ℚ)
    (entropy : ℕ → ℚ) (src dst : Int × Int) (bounds : Option Bounds)
    (s : HumanMouseSettings) (btn : MButton) :
    4 ≤ sleepsOf (human_move_and_click T seed_stream entropy src dst bounds s btn) := by
  simp only [human_move_and_click]
  rw [sleepsOf_append]
  have h := human_move_part_sleeps_ge T src dst bounds s
    ⟨(match s.rng_seed with
      | some sd => seed_stream sd
      | none => entropy), 0⟩
  omega

theorem human_move_and_click_moves (T : TransOps) (seed_stream : ℕ → ℕ → ℚ)
    (entropy : ℕ → ℚ) (src dst : Int × Int) (bounds : Option Bounds)
    (s : HumanMouseSettings) (btn : MButton) (hcos : T.cos pi32 = -1) :
    movesOf (human_move_and_click T seed_stream entropy src dst bounds s btn) ≠ [] ∧
    (movesOf (human_move_and_click T seed_stream entropy src dst bounds s btn)).getLast? =
      some (applyClamp bounds dst) := by
  simp only [human_move_and_click]
  rw [movesOf_append, movesOf_click_suffix, List.append_nil]
  exact human_move_part_moves T src dst bounds s _ hcos

/-! ## Lemmas about the job loop pieces -/

theorem sleep_loop_countP (env : JobEnv) (p : Ev → Bool)
    (hf : ∀ v, p (Ev.flagRead v) = false) (hs : ∀ n, p (Ev.sleep n) = false) :
    ∀ (left : ℕ) (st : JobSt), ((sleep_loop env st left).1).countP p = 0 := by
  intro left
  induction left using Nat.strong_induction_on with
  | _ left ih =>
    intro st
    rw [sleep_loop]
    split
    · simp
    · next hne =>
      simp only [read_flag]
      split
      · simp [List.countP_cons, hf]
      · have hrec := fun st2 => ih (left - min left 50) (by omega) st2
        simp [List.countP_append, List.countP_cons, hf, hs, hrec]

theorem sleep_between_countP (env : JobEnv) (p : Ev → Bool)
    (hf : ∀ v, p (Ev.flagRead v) = false) (hs : ∀ n, p (Ev.sleep n) = false)
    (st : JobSt) (secs : ℚ) : ((sleep_between env st secs).1).countP p = 0 :=
  sleep_loop_countP env p hf hs _ st

theorem do_click_clicks (env : JobEnv) (st : JobSt) (b : Bounds) (btn : MButton) :
    clicksOf (do_click env st b btn).1 = 1 := by
  simp only [do_click, clicksOf, List.countP_cons]
  rw [← clicksOf, human_move_and_click_clicks]
  rfl

theorem do_click_samples (env : JobEnv) (st : JobSt) (b : Bounds) (btn : MButton) :
    samplesOf (do_click env st b btn).1 = 1 := by
  simp only [do_click, samplesOf, List.countP_cons]
  rw [← samplesOf, human_move_and_click_samples]
  rfl

theorem do_click_flagReads (env : JobEnv) (st : JobSt) (b : Bounds) (btn : MButton) :
    flagReadsOf (do_click env st b btn).1 = 0 := by
  simp only [do_click, flagReadsOf, List.countP_cons]
  rw [← flagReadsOf, human_move_and_click_flagReads]
  rfl

theorem do_click_configReads (env : JobEnv) (st : JobSt) (b : Bounds) (btn : MButton) :
    configReadsOf (do_click env st b btn).1 = 0 := by
  simp only [do_click, configReadsOf, List.countP_cons]
  rw [← configReadsOf, human_move_and_click_configReads]
  rfl

theorem clicksOf_append (a b : List Ev) : clicksOf (a ++ b) = clicksOf a + clicksOf b := by
  simp [clicksOf, List.countP_append]

theorem samplesOf_append (a b : List Ev) : samplesOf (a ++ b) = samplesOf a + samplesOf b := by
  simp [samplesOf, List.countP_append]

theorem configReadsOf_append (a b : List Ev) :
    configReadsOf (a ++ b) = configReadsOf a + configReadsOf b := by
  simp [configReadsOf, List.countP_append]

theorem clicksOf_flagRead (v : Bool) : clicksOf [Ev.flagRead v] = 0 := rfl

theorem samplesOf_flagRead (v : Bool) : samplesOf [Ev.flagRead v] = 0 := rfl

theorem configReadsOf_flagRead (v : Bool) : configReadsOf [Ev.flagRead v] = 0 := rfl

theorem configReadsOf_configRead : configReadsOf [Ev.configRead] = 1 := rfl

theorem clicksOf_cons_flagRead (v : Bool) (l : List Ev) :
    clicksOf (Ev.flagRead v :: l) = clicksOf l := by
  simp [clicksOf, List.countP_cons, Ev.isDown]

theorem samplesOf_cons_flagRead (v : Bool) (l : List Ev) :
    samplesOf (Ev.flagRead v :: l) = samplesOf l := by
  simp [samplesOf, List.countP_cons, Ev.isSample]

theorem configReadsOf_cons_flagRead (v : Bool) (l : List Ev) :
    configReadsOf (Ev.flagRead v :: l) = configReadsOf l := by
  simp [configReadsOf, List.countP_cons, Ev.isConfigRead]

theorem clicksOf_sleep_between (env : JobEnv) (st : JobSt) (secs : ℚ) :
    clicksOf (sleep_between env st secs).1 = 0 :=
  sleep_between_countP env Ev.isDown (fun _ => rfl) (fun _ => rfl) st secs

theorem samplesOf_sleep_between (env : JobEnv) (st : JobSt) (secs : ℚ) :
    samplesOf (sleep_between env st secs).1 = 0 :=
  sleep_between_countP env Ev.isSample (fun _ => rfl) (fun _ => rfl) st secs

theorem configReadsOf_sleep_between (env : JobEnv) (st : JobSt) (secs : ℚ) :
    configReadsOf (sleep_between env st secs).1 = 0 :=
  sleep_between_countP env Ev.isConfigRead (fun _ => rfl) (fun _ => rfl) st secs

/-! ## The `Single` arm -/

theorem single_loop_inf (env : JobEnv) (hflag : ∀ n, env.flag n = true)
    (b : Bounds) (btn : MButton) (minS maxS : ℚ) :
    ∀ (fuel : ℕ) (st : JobSt),
      clicksOf (single_loop env b btn minS maxS fuel none st).1 = fuel ∧
      configReadsOf (single_loop env b btn minS maxS fuel none st).1 = 0 ∧
      samplesOf (single_loop env b btn minS maxS fuel none st).1 = fuel ∧
      (single_loop env b btn minS maxS fuel none st).2.2 = false
  | 0, st => by simp [single_loop, clicksOf, configReadsOf, samplesOf]
  | fuel + 1, st => by
    have ih := single_loop_inf env hflag b btn minS maxS fuel
    simp only [single_loop, read_flag, hflag]
    simp only [Option.map_none']
    have hni : ((true = false) = False) := by simp
    simp only [hni, if_false, reduceCtorEq, Option.map]
    refine ⟨?_, ?_, ?_, ?_⟩
    · simp only [clicksOf_append, clicksOf_flagRead, do_click_clicks,
        clicksOf_sleep_between, (ih _).1]
      omega
    · simp only [configReadsOf_append, configReadsOf_flagRead, do_click_configReads,
        configReadsOf_sleep_between, (ih _).2.1]
    · simp only [samplesOf_append, samplesOf_flagRead, do_click_samples,
        samplesOf_sleep_between, (ih _).2.2.1]
      omega
    · exact (ih _).2.2.2

theorem single_loop_flag_false (env : JobEnv) (hflag : ∀ n, env.flag n = false)
    (b : Bounds) (btn : MButton) (minS maxS : ℚ) (fuel : ℕ) (finite : Option ℕ)
    (st : JobSt) :
    clicksOf (single_loop env b btn minS maxS fuel finite st).1 = 0 ∧
      (1 ≤ fuel → (single_loop env b btn minS maxS fuel finite st).2.2 = true) := by
  cases fuel with
  | zero => simp [single_loop, clicksOf]
  | succ fu =>
    simp only [single_loop, read_flag, hflag]
    simp [clicksOf, Ev.isDown]

/-! ## The `Sequence` arm -/

theorem step_clicks_count (env : JobEnv) (hflag : ∀ n, env.flag n = true)
    (b : Bounds) (btn : MButton) (minS maxS : ℚ) :
    ∀ (n : ℕ) (st : JobSt),
      clicksOf (step_clicks env b btn minS maxS n st).1 = n ∧
      samplesOf (step_clicks env b btn minS maxS n st).1 = n ∧
      configReadsOf (step_clicks env b btn minS maxS n st).1 = 0 ∧
      (step_clicks env b btn minS maxS n st).2.2 = false
  | 0, st => by simp [step_clicks, clicksOf, samplesOf, configReadsOf]
  | n + 1, st => by
    have ih := step_clicks_count env hflag b btn minS maxS n
    simp only [step_clicks, read_flag, hflag]
    have hni : ((true = false) = False) := by simp
    simp only [hni, if_false]
    refine ⟨?_, ?_, ?_, ?_⟩
    · simp only [clicksOf_append, clicksOf_flagRead, do_click_clicks,
        clicksOf_sleep_between, (ih _).1]
      omega
    · simp only [samplesOf_append, samplesOf_flagRead, do_click_samples,
        samplesOf_sleep_between, (ih _).2.1]
      omega
    · simp only [configReadsOf_append, configReadsOf_flagRead, do_click_configReads,
        configReadsOf_sleep_between, (ih _).2.2.1]
    · exact (ih _).2.2.2

theorem seq_pass_count (env : JobEnv) (hflag : ∀ n, env.flag n = true) :
    ∀ (steps : List SequenceStep) (st : JobSt),
      clicksOf (seq_pass env steps st).1 = seqClickSum steps ∧
      configReadsOf (seq_pass env steps st).1 = 0 ∧
      (seq_pass env steps st).2.2 = false
  | [], st => by simp [seq_pass, seqClickSum, clicksOf, configReadsOf]
  | stp :: rest, st => by
    have ih := seq_pass_count env hflag rest
    simp only [seq_pass, read_flag, hflag]
    have hni : ((true = false) = False) := by simp
    simp only [hni, if_false]
    by_cases hvb : stp.bounds.is_valid = false
    · simp only [hvb, if_true]
      refine ⟨?_, ?_, (ih _).2.2⟩
      · simp [clicksOf_cons_flagRead, clicksOf_append, (ih _).1, seqClickSum, hvb]
      · simp [configReadsOf_cons_flagRead, configReadsOf_append, (ih _).2.1]
    · have hvt : stp.bounds.is_valid = true := by
        revert hvb
        cases stp.bounds.is_valid <;> simp
      have hsc := step_clicks_count env hflag stp.bounds stp.button
        (if stp.min_secs ≤ stp.max_secs then (stp.min_secs, stp.max_secs)
         else (stp.max_secs, stp.min_secs)).1
        (if stp.min_secs ≤ stp.max_secs then (stp.min_secs, stp.max_secs)
         else (stp.max_secs, stp.min_secs)).2 stp.clicks
      simp only [hvb, if_false, Bool.false_eq_true]
      simp only [(hsc _).2.2.2]
      simp only [Bool.false_eq_true, if_false]
      refine ⟨?_, ?_, (ih _).2.2⟩
      · simp [clicksOf_cons_flagRead, clicksOf_append, (hsc _).1, (ih _).1, seqClickSum, hvt]
      · simp [configReadsOf_cons_flagRead, configReadsOf_append, (hsc _).2.2.1, (ih _).2.1]

theorem clicksOf_cons_sleep (n : ℕ) (l : List Ev) :
    clicksOf (Ev.sleep n :: l) = clicksOf l := by
  simp [clicksOf, List.countP_cons, Ev.isDown]

theorem samplesOf_cons_sleep (n : ℕ) (l : List Ev) :
    samplesOf (Ev.sleep n :: l) = samplesOf l := by
  simp [samplesOf, List.countP_cons, Ev.isSample]

theorem configReadsOf_cons_sleep (n : ℕ) (l : List Ev) :
    configReadsOf (Ev.sleep n :: l) = configReadsOf l := by
  simp [configReadsOf, List.countP_cons, Ev.isConfigRead]

theorem clicksOf_cons_configRead (l : List Ev) :
    clicksOf (Ev.configRead :: l) = clicksOf l := by
  simp [clicksOf, List.countP_cons, Ev.isDown]

theorem samplesOf_cons_configRead (l : List Ev) :
    samplesOf (Ev.configRead :: l) = samplesOf l := by
  simp [samplesOf, List.countP_cons, Ev.isSample]

theorem configReadsOf_cons_configRead (l : List Ev) :
    configReadsOf (Ev.configRead :: l) = configReadsOf l + 1 := by
  simp [configReadsOf, List.countP_cons, Ev.isConfigRead]

/-! ## The `'cycles` loop -/

theorem cycles_loop_zero (env : JobEnv) (hflag : ∀ n, env.flag n = true)
    (steps : List SequenceStep) (fuel : ℕ) (st : JobSt) :
    clicksOf (cycles_loop env steps (fuel + 1) (some 0) st).1 = seqClickSum steps ∧
    (cycles_loop env steps (fuel + 1) (some 0) st).2.2 = true := by
  have hp := seq_pass_count env hflag steps
  simp only [cycles_loop, read_flag, hflag]
  have hni : ((true = false) = False) := by simp
  simp only [hni, if_false]
  simp only [(hp _).2.2, Bool.false_eq_true, if_false]
  refine ⟨?_, rfl⟩
  simp [clicksOf_cons_flagRead, clicksOf_append, (hp _).1]

theorem cycles_loop_some (env : JobEnv) (hflag : ∀ n, env.flag n = true)
    (steps : List SequenceStep) :
    ∀ (c : ℕ), 1 ≤ c → ∀ (fuel : ℕ) (st : JobSt), c ≤ fuel →
      clicksOf (cycles_loop env steps fuel (some c) st).1 = c * seqClickSum steps ∧
      (cycles_loop env steps fuel (some c) st).2.2 = true := by
  intro c
  induction c using Nat.strong_induction_on with
  | _ c ihc =>
    intro hc1 fuel st hcf
    obtain ⟨fu, rfl⟩ : ∃ fu, fuel = fu + 1 := ⟨fuel - 1, by omega⟩
    have hp := seq_pass_count env hflag steps
    simp only [cycles_loop, read_flag, hflag]
    have hni : ((true = false) = False) := by simp
    simp only [hni, if_false]
    simp only [(hp _).2.2, Bool.false_eq_true, if_false]
    rw [if_neg (by omega : ¬ c = 0)]
    by_cases hc1' : c - 1 = 0
    · rw [if_pos hc1']
      have hce : c = 1 := by omega
      subst hce
      refine ⟨?_, rfl⟩
      simp [clicksOf_cons_flagRead, clicksOf_append, (hp _).1]
    · rw [if_neg hc1']
      have hrec := ihc (c - 1) (by omega) (by omega) fu
        (seq_pass env steps { st with flagReads := st.flagReads + 1 }).2.1 (by omega)
      refine ⟨?_, hrec.2⟩
      simp only [clicksOf_cons_flagRead, clicksOf_append, (hp _).1, hrec.1]
      have hone : c - 1 + 1 = c := by omega
      calc clicksOf [] + seqClickSum steps + (c - 1) * seqClickSum steps
          = (c - 1 + 1) * seqClickSum steps := by
            simp only [clicksOf]
            simp [List.countP_nil]
            ring
        _ = c * seqClickSum steps := by rw [hone]

/-! ## Idle behavior of the `'outer` loop -/

theorem job_run_idle (env : JobEnv) (hflag : ∀ n, env.flag n = true)
    (hcfg : ∀ n, IsIdleSingle (env.configs n)) :
    ∀ (fuel : ℕ) (st : JobSt),
      samplesOf (job_run env fuel st).1 = 0 ∧ clicksOf (job_run env fuel st).1 = 0 ∧
      configReadsOf (job_run env fuel st).1 = fuel
  | 0, st => by simp [job_run, samplesOf, clicksOf, configReadsOf]
  | fuel + 1, st => by
    have ih := job_run_idle env hflag hcfg fuel
    have hc := hcfg st.configReads
    simp only [job_run, read_flag, read_config, hflag]
    have hni : ((true = false) = False) := by simp
    simp only [hni, if_false]
    rcases hcm : env.configs st.configReads with ⟨mode⟩
    rw [hcm] at hc
    rcases mode with ⟨bounds, btn, mS, MS, fin⟩ | ⟨steps, cyc⟩
    · rcases bounds with _ | bb
      · refine ⟨?_, ?_, ?_⟩
        · simp [samplesOf_cons_flagRead, samplesOf_cons_configRead, samplesOf_cons_sleep,
            samplesOf_append, (ih _).1]
        · simp [clicksOf_cons_flagRead, clicksOf_cons_configRead, clicksOf_cons_sleep,
            clicksOf_append, (ih _).2.1]
        · simp [configReadsOf_cons_flagRead, configReadsOf_cons_configRead,
            configReadsOf_cons_sleep, configReadsOf_append, (ih _).2.2]
      · have hbv : bb.is_valid = false := hc
        simp only [hbv, if_true]
        refine ⟨?_, ?_, ?_⟩
        · simp [samplesOf_cons_flagRead, samplesOf_cons_configRead, samplesOf_cons_sleep,
            samplesOf_append, (ih _).1]
        · simp [clicksOf_cons_flagRead, clicksOf_cons_configRead, clicksOf_cons_sleep,
            clicksOf_append, (ih _).2.1]
        · simp [configReadsOf_cons_flagRead, configReadsOf_cons_configRead,
            configReadsOf_cons_sleep, configReadsOf_append, (ih _).2.2]
    · exact absurd hc (by simp [IsIdleSingle])

/-! ## Concrete evaluation of one long move (for the duration-bound claim) -/

theorem fsqrt_nine_million : fsqrt 9000000 = 3000 := by
  rw [show (9000000 : ℚ) = 3000 * 3000 by norm_num, fsqrt, Rat.sqrt_eq]
  norm_num

theorem c1_overshoot : maybe_overshoot (3000, 0) (0, 0) default_settings rng0
    = ((3000, 0), ⟨halfStream, 1⟩) := by
  simp only [maybe_overshoot, Rng.gen_unit, Rng.u, Rng.bump, rng0, halfStream,
    default_settings]
  norm_num

theorem innerPlan_step_shape (src dst : Int × Int) (s : HumanMouseSettings) (rng : Rng) :
    (innerPlan src dst s rng).1.step_ms
      = 8 + (⌊rng.stream (rng.pos + 1 + 1 + 1) * ((12 : ℚ) + 1 - 8)⌋).toNat := rfl

theorem innerPlan_total_shape (src dst : Int × Int) (s : HumanMouseSettings) (rng : Rng) :
    (innerPlan src dst s rng).1.total_ms
      = (⌊min (max ((len ((src.1 : ℚ), (src.2 : ℚ)) ((dst.1 : ℚ), (dst.2 : ℚ))
            / max (s.avg_speed * (1 + s.speed_jitter
                * (-1 + rng.stream (rng.pos + 1 + 1) * (1 - -1)))) 200) * 1000) 60)
          1600⌋).toNat := rfl

theorem innerPlan_pause_none (src dst : Int × Int) (s : HumanMouseSettings) (rng : Rng)
    (h : ¬ (rng.stream (rng.pos + 1 + 1 + 1 + 1) < 1/4)) :
    (innerPlan src dst s rng).1.pause_at = none := by
  simp only [innerPlan, make_bezier_with_wiggle, Rng.gen_range_q, Rng.gen_unit,
    Rng.gen_range_nat, Rng.gen_range_nat_ho, Rng.u, Rng.bump]
  rw [if_neg h]

theorem human_move_main_no_overshoot (T : TransOps) (src1 dst : Int × Int)
    (bounds : Option Bounds) (s : HumanMouseSettings) (rng : Rng)
    (h : (maybe_overshoot dst src1 s rng).1 = dst) :
    human_move_main T src1 dst bounds s rng
      = human_move_inner T src1 dst bounds s (maybe_overshoot dst src1 s rng).2 := by
  simp only [human_move_main]
  rw [if_neg (by simp [h])]

theorem len_c1 : len (0 : ℚ × ℚ) ((3000 : ℚ), (0 : ℚ)) = 3000 := by
  rw [len]
  norm_num [fsqrt_nine_million]

theorem c1_total : (innerPlan (0, 0) (3000, 0) default_settings ⟨halfStream, 1⟩).1.total_ms
    = 1600 := by
  rw [innerPlan_total_shape]
  norm_num [halfStream, default_settings]
  rw [len_c1]
  rw [show (3000 : ℚ) / 1400 * 1000 = 15000 / 7 by norm_num]
  rw [show max (15000 / 7 : ℚ) 60 = 15000 / 7 from max_eq_left (by norm_num)]
  rw [show min (15000 / 7 : ℚ) 1600 = 1600 from min_eq_right (by norm_num)]
  norm_num
  simp

theorem c1_step : (innerPlan (0, 0) (3000, 0) default_settings ⟨halfStream, 1⟩).1.step_ms
    = 10 := by
  rw [innerPlan_step_shape]
  norm_num [halfStream]
  simp

theorem c1_pause : (innerPlan (0, 0) (3000, 0) default_settings ⟨halfStream, 1⟩).1.pause_at
    = none := by
  apply innerPlan_pause_none
  norm_num [halfStream]

theorem c1_steps : (innerPlan (0, 0) (3000, 0) default_settings ⟨halfStream, 1⟩).1.steps
    = 160 := by
  rw [innerPlan_steps_eq, c1_total, c1_step]
  decide

/-! # The claims -/

/-- C1 (counterexample): the claim "the total summed delay of one
synthesized movement lies within [60 ms, 1600 ms]" is false as stated: for
the 3000-pixel move from (0,0) to (3000,0) with the default profile and
the constant-1/2 draw stream, the nominal duration clamps to 1600 ms but
the executed per-step sleeps total 161 × 10 = 1610 ms > 1600 ms. -/
theorem C1_total_delay_counterexample :
    1600 < totalSleep (human_move_part T0 (0, 0) (3000, 0) none default_settings rng0).1 := by
  have hpart : human_move_part T0 (0, 0) (3000, 0) none default_settings rng0
      = human_move_inner T0 (0, 0) (3000, 0) none default_settings ⟨halfStream, 1⟩ := by
    rw [show human_move_part T0 (0, 0) (3000, 0) none default_settings rng0
        = human_move_main T0 (0, 0) (3000, 0) none default_settings rng0 from rfl]
    rw [human_move_main_no_overshoot T0 (0, 0) (3000, 0) none default_settings rng0
        (by rw [c1_overshoot])]
    rw [c1_overshoot]
  rw [hpart]
  have ht := totalSleep_runSteps_pause_none T0 none default_settings
      (innerPlan (0, 0) (3000, 0) default_settings ⟨halfStream, 1⟩).1 c1_pause
      (List.range ((innerPlan (0, 0) (3000, 0) default_settings ⟨halfStream, 1⟩).1.steps + 1))
      (innerPlan (0, 0) (3000, 0) default_settings ⟨halfStream, 1⟩).2
  show 1600 < totalSleep (runSteps T0 none default_settings
      (innerPlan (0, 0) (3000, 0) default_settings ⟨halfStream, 1⟩).1
      (List.range ((innerPlan (0, 0) (3000, 0) default_settings ⟨halfStream, 1⟩).1.steps + 1))
      (innerPlan (0, 0) (3000, 0) default_settings ⟨halfStream, 1⟩).2).1
  rw [ht, List.length_range, c1_steps, c1_step]
  norm_num

/-- C1 (amended): for every start, end, Motion Profile, admissible draw
stream, and absent or valid clamping region (an inverted region panics in
`i32::clamp` before any sleep — the subject of C9), the total summed
movement delay (all per-step sleeps plus any mid-path pause, overshoot
settle pause and entry sub-path) is at least 60 ms; it is not bounded by
1600 ms but by 3·(1600 + 12 + max_pause_ms) + 39 ms (each of the
up-to-three path segments has its nominal duration clamped to [60,1600]
ms, rounded up to at most total_ms + step_ms ≤ 1612 ms of sleeps plus one
pause, and the settle pause adds at most 39 ms). -/
theorem C1_total_delay_amended (T : TransOps) (src dst : Int × Int) (bounds : Option Bounds)
    (s : HumanMouseSettings) (rng : Rng) (hv : RngValid rng)
    (hp : s.min_pause_ms ≤ s.max_pause_ms)
    (_hbv : ∀ b, bounds = some b → b.is_valid = true) :
    60 ≤ totalSleep (human_move_part T src dst bounds s rng).1 ∧
    totalSleep (human_move_part T src dst bounds s rng).1
      ≤ 3 * (1612 + s.max_pause_ms) + 39 :=
  ⟨human_move_part_sleep_ge T src dst bounds s rng,
   human_move_part_sleep_le T src dst bounds s rng hv hp⟩

/-- Witness for C1 (amended) at a concrete input with a valid region. -/
theorem C1_total_delay_witness :
    60 ≤ totalSleep (human_move_part T0 (0, 0) (10, 10) (some boxB) default_settings rng0).1 ∧
    totalSleep (human_move_part T0 (0, 0) (10, 10) (some boxB) default_settings rng0).1
      ≤ 3 * (1612 + 60) + 39 := by
  have h := C1_total_delay_amended T0 (0, 0) (10, 10) (some boxB) default_settings rng0
      halfStream_valid (by norm_num [default_settings])
      (fun b hb => by
        injection hb with h
        subst h
        decide)
  simpa [default_settings] using h

/-- C2: for every start/end pair, bounds and Motion Profile whose
`rng_seed` is `Some sd`, the synthesized trajectory does not depend on the
entropy source: two invocations with the same seed produce identical
event sequences (positions, delays and clicks). -/
theorem C2_seeded_determinism (T : TransOps) (seed_stream : ℕ → ℕ → ℚ)
    (ent1 ent2 : ℕ → ℚ) (src dst : Int × Int) (bounds : Option Bounds)
    (s : HumanMouseSettings) (btn : MButton) (sd : ℕ) (h : s.rng_seed = some sd) :
    human_move_and_click T seed_stream ent1 src dst bounds s btn
      = human_move_and_click T seed_stream ent2 src dst bounds s btn := by
  simp only [human_move_and_click, h]

/-- Witness for C2 at a concrete seeded profile and two distinct
entropy sources. -/
theorem C2_seeded_determinism_witness :
    human_move_and_click T0 (fun _ => halfStream) (fun _ => 0) (0, 0) (50, 40) none
        seeded_settings MButton.left
      = human_move_and_click T0 (fun _ => halfStream) (fun _ => (1/3 : ℚ)) (0, 0) (50, 40)
        none seeded_settings MButton.left :=
  C2_seeded_determinism T0 (fun _ => halfStream) (fun _ => 0) (fun _ => (1/3 : ℚ))
    (0, 0) (50, 40) none seeded_settings MButton.left 7 rfl

/-- C3: for every synthesized trajectory (any start, end, profile, seed
or entropy, and an absent or valid region — on an inverted region the
source panics inside `nearest_point`/`i32::clamp` before emitting any
position, the subject of C9), given that the cosine oracle satisfies
`cos π = -1` (true of `f32::cos`), the emitted sequence of pointer
positions is non-empty and its final position is exactly the target
`dst`, clamped into the supplied region when one is given. -/
theorem C3_final_point (T : TransOps) (seed_stream : ℕ → ℕ → ℚ) (entropy : ℕ → ℚ)
    (src dst : Int × Int) (bounds : Option Bounds) (s : HumanMouseSettings)
    (btn : MButton) (_hbv : ∀ b, bounds = some b → b.is_valid = true)
    (hcos : T.cos pi32 = -1) :
    movesOf (human_move_and_click T seed_stream entropy src dst bounds s btn) ≠ [] ∧
    (movesOf (human_move_and_click T seed_stream entropy src dst bounds s btn)).getLast?
      = some (applyClamp bounds dst) :=
  human_move_and_click_moves T seed_stream entropy src dst bounds s btn hcos

/-- Witness for C3 at a concrete input with a valid region. -/
theorem C3_final_point_witness :
    movesOf (human_move_and_click T0 (fun _ => halfStream) halfStream (0, 0) (5, 5)
        (some boxB) default_settings MButton.left) ≠ [] ∧
    (movesOf (human_move_and_click T0 (fun _ => halfStream) halfStream (0, 0) (5, 5)
        (some boxB) default_settings MButton.left)).getLast?
      = some (applyClamp (some boxB) (5, 5)) :=
  C3_final_point T0 (fun _ => halfStream) halfStream (0, 0) (5, 5) (some boxB)
    default_settings MButton.left
    (fun b hb => by
      injection hb with h
      subst h
      decide)
    (by simp [T0])

/-- C4 (counterexample): the claim "the cancellation signal is re-checked
before every per-step sleep, and an observed cancellation aborts the
remaining steps and skips the click" is false: at a concrete input, one
synthesized-and-executed movement performs at least four sleeps and the
final click while reading the cancellation flag zero times — the movement
code receives no cancellation signal at all. -/
theorem C4_cancellation_counterexample :
    flagReadsOf (human_move_and_click T0 (fun _ => halfStream) halfStream (0, 0) (90, 0)
        none default_settings MButton.left) = 0 ∧
    4 ≤ sleepsOf (human_move_and_click T0 (fun _ => halfStream) halfStream (0, 0) (90, 0)
        none default_settings MButton.left) ∧
    clicksOf (human_move_and_click T0 (fun _ => halfStream) halfStream (0, 0) (90, 0)
        none default_settings MButton.left) = 1 :=
  ⟨human_move_and_click_flagReads T0 (fun _ => halfStream) halfStream (0, 0) (90, 0) none
      default_settings MButton.left,
   human_move_and_click_sleeps_ge T0 (fun _ => halfStream) halfStream (0, 0) (90, 0) none
      default_settings MButton.left,
   human_move_and_click_clicks T0 (fun _ => halfStream) halfStream (0, 0) (90, 0) none
      default_settings MButton.left⟩

/-- C4 (amended): the cancellation flag is never consulted during a
synthesized movement — for every input whose clamping region is absent or
valid (an inverted region panics in `i32::clamp` before the click, the
subject of C9), `human_move_and_click` reads the flag zero times and
performs exactly one click; cancellation is observed only in the Click
Job loop, before each click iteration: a `Single`-arm iteration entered
with the flag already false performs zero clicks and exits the thread. -/
theorem C4_cancellation_amended :
    (∀ (T : TransOps) (seed_stream : ℕ → ℕ → ℚ) (entropy : ℕ → ℚ) (src dst : Int × Int)
        (bounds : Option Bounds) (s : HumanMouseSettings) (btn : MButton),
      (∀ b, bounds = some b → b.is_valid = true) →
      flagReadsOf (human_move_and_click T seed_stream entropy src dst bounds s btn) = 0 ∧
      clicksOf (human_move_and_click T seed_stream entropy src dst bounds s btn) = 1) ∧
    (∀ (env : JobEnv), (∀ n, env.flag n = false) →
      ∀ (b : Bounds) (btn : MButton) (minS maxS : ℚ) (fuel : ℕ) (finite : Option ℕ)
        (st : JobSt),
        clicksOf (single_loop env b btn minS maxS fuel finite st).1 = 0 ∧
        (1 ≤ fuel → (single_loop env b btn minS maxS fuel finite st).2.2 = true)) :=
  ⟨fun T seed_stream entropy src dst bounds s btn _ =>
    ⟨human_move_and_click_flagReads T seed_stream entropy src dst bounds s btn,
     human_move_and_click_clicks T seed_stream entropy src dst bounds s btn⟩,
   fun env hflag b btn minS maxS fuel finite st =>
    single_loop_flag_false env hflag b btn minS maxS fuel finite st⟩

/-- Witness for C4 (amended) at concrete inputs. -/
theorem C4_cancellation_witness :
    (flagReadsOf (human_move_and_click T0 (fun _ => halfStream) halfStream (0, 0) (90, 0)
        none spawn_settings MButton.left) = 0 ∧
     clicksOf (human_move_and_click T0 (fun _ => halfStream) halfStream (0, 0) (90, 0)
        none spawn_settings MButton.left) = 1) ∧
    (clicksOf (single_loop c4env boxB MButton.left 1 1 3 none st0).1 = 0 ∧
     (1 ≤ 3 → (single_loop c4env boxB MButton.left 1 1 3 none st0).2.2 = true)) :=
  ⟨C4_cancellation_amended.1 T0 (fun _ => halfStream) halfStream (0, 0) (90, 0) none
      spawn_settings MButton.left (fun _b hb => Option.noConfusion hb),
   C4_cancellation_amended.2 c4env (fun _ => rfl) boxB MButton.left 1 1 3 none st0⟩

/-- C5 (counterexample): the claim "the Single-mode job reads a fresh
snapshot of the shared configuration before every click, so that setting
the Region to None mid-run transitions it to idling" is false: with a
schedule that holds a valid region only at the very first config read and
`None` afterwards, a run with fuel 5 performs 4 clicks after a single
config read — no re-read happens between clicks and the removed region is
never observed. -/
theorem C5_single_snapshot_counterexample :
    clicksOf (job_run c5env 5 st0).1 = 4 ∧ configReadsOf (job_run c5env 5 st0).1 = 1 := by
  have hflag : ∀ n, c5env.flag n = true := fun _ => rfl
  have hsl := single_loop_inf c5env hflag boxB MButton.left 1 1 4
  have hni : ((true = false) = False) := by simp
  simp only [show (5 : ℕ) = 4 + 1 from rfl, job_run, read_flag, read_config]
  simp only [show ∀ n, c5env.flag n = true from fun _ => rfl, hni, if_false]
  simp only [show st0.configReads = 0 from rfl]
  simp only [show c5env.configs 0
      = ⟨JobMode.single (some boxB) MButton.left 1 1 none⟩ from rfl]
  simp only [show boxB.is_valid = true by decide, hni, if_false]
  constructor
  · simp only [clicksOf_cons_flagRead, clicksOf_cons_configRead, clicksOf_append,
      clicksOf_flagRead, (hsl _).1]
    rfl
  · simp only [configReadsOf_cons_flagRead, configReadsOf_cons_configRead,
      configReadsOf_append, configReadsOf_flagRead, (hsl _).2.1]
    rfl

/-- C5 (amended): the Single-mode job reads the configuration once per
outer iteration only: an absent Region at the first read makes it idle
150 ms and re-read, and it resumes clicking once a valid Region is
written (it never crashes); but after it starts clicking on a valid
snapshot it never re-reads — with `fuel` further iterations it performs
`fuel` clicks against exactly 2 config reads in total, so mid-run edits
are not observed before each click. -/
theorem C5_single_snapshot_amended (env : JobEnv) (b : Bounds) (btn : MButton)
    (mS MS : ℚ) (hflag : ∀ n, env.flag n = true)
    (hc0 : env.configs 0 = ⟨JobMode.single none btn mS MS none⟩)
    (hc1 : ∀ n, 1 ≤ n → env.configs n = ⟨JobMode.single (some b) btn mS MS none⟩)
    (hb : b.is_valid = true) (st : JobSt) (hst : st.configReads = 0) (fuel : ℕ) :
    clicksOf (job_run env (fuel + 2) st).1 = fuel ∧
    configReadsOf (job_run env (fuel + 2) st).1 = 2 ∧
    (job_run env (fuel + 2) st).2.2 = false := by
  have h1 := hc1 1 (by omega)
  have hsl := single_loop_inf env hflag b btn mS MS fuel
  have hni : ((true = false) = False) := by simp
  simp only [show fuel + 2 = (fuel + 1) + 1 from rfl, job_run, read_flag, read_config,
    hflag, hni, if_false, hst, hc0, Nat.zero_add, h1, hb]
  refine ⟨?_, ?_, (hsl _).2.2.2⟩
  · simp only [clicksOf_cons_flagRead, clicksOf_cons_configRead, clicksOf_cons_sleep,
      clicksOf_append, clicksOf_flagRead, (hsl _).1]
    have hz : clicksOf ([] : List Ev) = 0 := rfl
    omega
  · simp only [configReadsOf_cons_flagRead, configReadsOf_cons_configRead,
      configReadsOf_cons_sleep, configReadsOf_append, configReadsOf_flagRead, (hsl _).2.1]
    have hz : configReadsOf ([] : List Ev) = 0 := rfl
    omega

/-- Witness for C5 (amended): with no region at the first read and a valid
one afterwards, a fuel-5 run idles once, resumes, clicks 3 times, and has
read the config exactly twice. -/
theorem C5_single_snapshot_witness :
    clicksOf (job_run c5aenv 5 st0).1 = 3 ∧ configReadsOf (job_run c5aenv 5 st0).1 = 2 ∧
    (job_run c5aenv 5 st0).2.2 = false :=
  C5_single_snapshot_amended c5aenv boxB MButton.left 1 1 (fun _ => rfl) rfl
    (fun n hn => by
      simp only [c5aenv, baseEnv]
      rw [if_neg (by omega)])
    (by decide) st0 rfl 3

/-- C6: in Sequence mode with exactly two steps of 3 clicks each and
`cycles = Some(2)`, the job performs exactly 12 clicks and then exits the
thread: the counter is decremented after each full pass and the loop
breaks when it reaches zero. -/
theorem C6_sequence_total (env : JobEnv) (s1 s2 : SequenceStep)
    (hflag : ∀ n, env.flag n = true)
    (hcfg : ∀ n, env.configs n = ⟨JobMode.sequence [s1, s2] (some 2)⟩)
    (h1 : s1.clicks = 3) (h2 : s2.clicks = 3)
    (hv1 : s1.bounds.is_valid = true) (hv2 : s2.bounds.is_valid = true)
    (fuel : ℕ) (hfu : 2 ≤ fuel) (st : JobSt) :
    clicksOf (job_run env (fuel + 1) st).1 = 12 ∧
    (job_run env (fuel + 1) st).2.2 = true := by
  have hni : ((true = false) = False) := by simp
  have hsum : seqClickSum [s1, s2] = 6 := by
    simp [seqClickSum, hv1, hv2, h1, h2]
  have hcl := cycles_loop_some env hflag [s1, s2] 2 (by omega)
  simp only [job_run, read_flag, read_config, hflag, hni, if_false, hcfg]
  simp only [List.isEmpty_cons, Bool.false_eq_true, if_false]
  refine ⟨?_, (hcl fuel _ hfu).2⟩
  simp only [clicksOf_cons_flagRead, clicksOf_cons_configRead, clicksOf_append,
    clicksOf_flagRead, (hcl fuel _ hfu).1, hsum]
  have hz : clicksOf ([] : List Ev) = 0 := rfl
  omega

/-- Witness for C6 at concrete inputs: two 3-click steps, two cycles,
fuel 2 — 12 clicks and a clean exit. -/
theorem C6_sequence_total_witness :
    clicksOf (job_run c6env 3 st0).1 = 12 ∧ (job_run c6env 3 st0).2.2 = true :=
  C6_sequence_total c6env (c6step "a") (c6step "b") (fun _ => rfl) (fun _ => rfl)
    rfl rfl (by decide) (by decide) 2 (by omega) st0

/-- C7: for every valid region and admissible draw stream, the target
point `do_click` samples (one inclusive `gen_range` per coordinate) lies
inside the region. -/
theorem C7_sample_in_region (b : Bounds) (rng : Rng) (hv : RngValid rng)
    (hb : b.is_valid = true) :
    b.contains (sample_point b rng).1 = true := by
  have hwh : 0 < b.width ∧ 0 < b.height := by
    have h := hb
    simp only [Bounds.is_valid, Bool.and_eq_true, decide_eq_true_eq] at h
    exact h
  have hx : b.min_x ≤ b.max_x := by
    have := hwh.1
    simp only [Bounds.width] at this
    omega
  have hy : b.min_y ≤ b.max_y := by
    have := hwh.2
    simp only [Bounds.height] at this
    omega
  have hX := gen_range_int_bounds hv hx
  have hv2 : RngValid (rng.gen_range_int b.min_x b.max_x).2 := hv.bump
  have hY := gen_range_int_bounds hv2 hy
  simp only [sample_point, Bounds.contains, Bool.and_eq_true, decide_eq_true_eq]
  exact ⟨⟨hX.1, hX.2⟩, ⟨hY.1, hY.2⟩⟩

/-- Witness for C7 at a concrete region and stream. -/
theorem C7_sample_in_region_witness :
    boxB.contains (sample_point boxB rng0).1 = true :=
  C7_sample_in_region boxB rng0 halfStream_valid (by decide)

/-- C8: an inverted region is reported invalid; a Single-mode job whose
configured region is (always) absent or invalid idle-loops without ever
sampling a target or clicking, reading the config each iteration; and a
Sequence pass skips invalid steps instead of aborting — it finishes the
whole pass (`broke = false`) and still performs every valid step's
clicks. -/
theorem C8_invalid_region_behaviour :
    (∀ b : Bounds, (b.max_x < b.min_x ∨ b.max_y < b.min_y) → b.is_valid = false) ∧
    (∀ env : JobEnv, (∀ n, env.flag n = true) → (∀ n, IsIdleSingle (env.configs n)) →
      ∀ (fuel : ℕ) (st : JobSt),
        samplesOf (job_run env fuel st).1 = 0 ∧
        clicksOf (job_run env fuel st).1 = 0 ∧
        configReadsOf (job_run env fuel st).1 = fuel) ∧
    (∀ env : JobEnv, (∀ n, env.flag n = true) →
      ∀ (steps : List SequenceStep) (st : JobSt),
        clicksOf (seq_pass env steps st).1 = seqClickSum steps ∧
        (seq_pass env steps st).2.2 = false) :=
  ⟨fun b h => by
      simp only [Bounds.is_valid, Bounds.width, Bounds.height, Bool.and_eq_false_iff,
        decide_eq_false_iff_not]
      omega,
   fun env hflag hcfg fuel st => job_run_idle env hflag hcfg fuel st,
   fun env hflag steps st =>
    ⟨(seq_pass_count env hflag steps st).1, (seq_pass_count env hflag steps st).2.2⟩⟩

/-- Witness for C8 at concrete inputs: the inverted region of the spec's
example, an idling Single job over it, and a pass over an invalid step
followed by a valid 2-click step. -/
theorem C8_invalid_region_witness :
    invB.is_valid = false ∧
    (samplesOf (job_run c8env 3 st0).1 = 0 ∧ clicksOf (job_run c8env 3 st0).1 = 0 ∧
      configReadsOf (job_run c8env 3 st0).1 = 3) ∧
    (clicksOf (seq_pass c8env [c8step, c10step] st0).1 = seqClickSum [c8step, c10step] ∧
      (seq_pass c8env [c8step, c10step] st0).2.2 = false) :=
  ⟨C8_invalid_region_behaviour.1 invB (by decide),
   C8_invalid_region_behaviour.2.1 c8env (fun _ => rfl)
     (fun n => show invB.is_valid = false by decide) 3 st0,
   C8_invalid_region_behaviour.2.2 c8env (fun _ => rfl) [c8step, c10step] st0⟩

/-- C9 (counterexample): the claim that every geometric primitive is
total with no failure modes is false: on the inverted region of the
spec's own example, `clamp` (and hence `nearest_point`) hits the
`assert!(min <= max)` inside `i32::clamp` and panics — modelled as
`none`. -/
theorem C9_geometry_total_counterexample :
    invB.clamp (150, 150) = none ∧ invB.nearest_point (150, 150) = none := by
  constructor <;> rfl

/-- C9 (amended): `width`, `height`, `is_valid` and `contains` are total,
but `clamp` returns a value exactly when neither axis is inverted — in
which case it is the componentwise clamp — and panics (`none`) otherwise;
`nearest_point` is definitionally `clamp` and inherits the panic. -/
theorem C9_geometry_total_amended (b : Bounds) (p : Int × Int) :
    (b.clamp p
      = if b.min_x ≤ b.max_x ∧ b.min_y ≤ b.max_y then some (b.clampVal p) else none) ∧
    b.nearest_point p = b.clamp p := by
  refine ⟨?_, rfl⟩
  by_cases hx : b.min_x ≤ b.max_x <;> by_cases hy : b.min_y ≤ b.max_y <;>
    simp [Bounds.clamp, i32_clamp, Bounds.clampVal, i32_clamp_val, hx, hy]

/-- C10: in Sequence mode with a non-empty step list and
`cycles = Some(0)`, the job performs one full pass (every valid step's
configured clicks) before exiting: the zero test on the counter happens
only after a completed pass. -/
theorem C10_zero_cycles_one_pass (env : JobEnv) (steps : List SequenceStep)
    (hflag : ∀ n, env.flag n = true)
    (hcfg : ∀ n, env.configs n = ⟨JobMode.sequence steps (some 0)⟩)
    (hne : steps ≠ []) (fuel : ℕ) (st : JobSt) :
    clicksOf (job_run env (fuel + 2) st).1 = seqClickSum steps ∧
    (job_run env (fuel + 2) st).2.2 = true := by
  have hni : ((true = false) = False) := by simp
  have hie : steps.isEmpty = false := by
    cases steps with
    | nil => exact absurd rfl hne
    | cons a l => rfl
  have hz := cycles_loop_zero env hflag steps fuel
  simp only [show fuel + 2 = (fuel + 1) + 1 from rfl, job_run, read_flag, read_config,
    hflag, hni, if_false, hcfg]
  simp only [hie, Bool.false_eq_true, if_false]
  refine ⟨?_, (hz _).2⟩
  simp only [clicksOf_cons_flagRead, clicksOf_cons_configRead, clicksOf_append,
    clicksOf_flagRead, (hz _).1]
  have hz0 : clicksOf ([] : List Ev) = 0 := rfl
  omega

/-- Witness for C10 at concrete inputs: one 2-click step,
`cycles = Some(0)` — the pass runs, 2 clicks happen, the thread exits. -/
theorem C10_zero_cycles_witness :
    clicksOf (job_run c10env 2 st0).1 = 2 ∧ (job_run c10env 2 st0).2.2 = true := by
  have h := C10_zero_cycles_one_pass c10env [c10step] (fun _ => rfl) (fun _ => rfl)
    (by simp) 0 st0
  exact ⟨by rw [h.1]; decide, h.2⟩

end AreaPicker
